import Mathlib

/-
Verification of the grammar dependency-graph manager (`AntlrFacade`) of the
vscode-antlr4 language-service core.

The facade maps grammar file names to reference-counted context entries,
resolves and loads dependencies transitively on every (re)parse, and releases
them recursively when a reference count reaches zero.

Modelling notes.
* JavaScript objects (`ContextEntry`, `SourceContext`) are heap objects that
  stay alive while referenced even after their map binding is deleted.  We
  model this with arenas keyed by numeric ids (`entries`, `contexts`) plus the
  name map `sourceContexts : name → id`; mutations of an object go through its
  arena id, exactly like mutation through a JS object reference.
* The external grammar compiler (`SourceContext.parse`, error flags, sentence
  generation callbacks) is not part of the sources of this component; it is
  modelled from the spec as functions of the current source text
  (`CompilerModel`).
* The file system (`fs.statSync` / `fs.accessSync` / `fs.readFileSync`) is
  modelled by predicates on paths (`FileSystemModel`).
* The mutually recursive load cluster (`loadGrammar` → `parseGrammar` →
  `loadDependency` → `loadGrammar`) recurses into freshly discovered files;
  the model bounds that recursion depth by an explicit fuel parameter.  The
  release recursion deletes a map binding before each recursive step, so the
  map size bounds its depth; `internalReleaseGrammar` runs the fuel-indexed
  recursion with fuel `map size + 1`, and fuel irrelevance above that bound is
  proved below.
-/

namespace VsAntlr

/-! ## Association lists (the JS `Map` and the object arenas) -/

/-- First value bound to `k`, like `Map.prototype.get`. -/
def alFind {κ α : Type} [DecidableEq κ] : List (κ × α) → κ → Option α
  | [], _ => none
  | (k', v) :: rest, k => if k' = k then some v else alFind rest k

/-- Bind `k` to `v`: replace the first binding in place if present, otherwise
append — like `Map.prototype.set` (insertion order preserved on update). -/
def alSet {κ α : Type} [DecidableEq κ] : List (κ × α) → κ → α → List (κ × α)
  | [], k, v => [(k, v)]
  | (k', v') :: rest, k, v =>
    if k' = k then (k, v) :: rest else (k', v') :: alSet rest k v

/-- Remove every binding of `k`, like `Map.prototype.delete`. -/
def alErase {κ α : Type} [DecidableEq κ] : List (κ × α) → κ → List (κ × α)
  | [], _ => []
  | (k', v) :: rest, k =>
    if k' = k then alErase rest k else (k', v) :: alErase rest k

/-! ## Paths and the external world -/

/-- The characters before the last `/` of a character list, or `none` when
there is no `/`. -/
def beforeLastSlash : List Char → Option (List Char)
  | [] => none
  | c :: rest =>
    match beforeLastSlash rest with
    | some tail => some (c :: tail)
    | none => if c = '/' then some [] else none

/-- Directory part of a path, up to the last separator; `.` when the path has
no separator (simplified model of node `path.dirname`, no normalization). -/
def dirname (p : String) : String :=
  match beforeLastSlash p.data with
  | none => "."
  | some cs => String.mk cs

/-- Join two path segments (simplified model of node `path.join`:
no `.`/`..` normalization; paths are treated as opaque map keys). -/
def pathJoin (a b : String) : String := a ++ "/" ++ b

/-- A path is absolute when it starts with the separator (POSIX model of
node `path.isAbsolute`). -/
def isAbsolute (p : String) : Bool :=
  match p.data with
  | '/' :: _ => true
  | _ => false

/-- Modelled from the spec: the file-system operations used by the facade.
`statOk p` holds when `fs.statSync p` succeeds (the file exists), `readOk p`
when `fs.accessSync p R_OK` succeeds (the file is readable), and `content p`
is what `fs.readFileSync p` returns. -/
structure FileSystemModel where
  statOk : String → Bool
  readOk : String → Bool
  content : String → String

/-- Modelled from the spec: the external grammar compiler behind
`SourceContext`, which is not among the sources of this component.  Per the
spec it "consumes grammar source text, produces a parse tree, a list of
unresolved dependency names, diagnostics"; we model the dependency-name list
and the error flag as functions of the source text, and the sentence
generation of a (text, rule) pair as the list of callback invocations it
performs. -/
structure CompilerModel where
  parseDeps : String → List String
  parseHasErrors : String → Bool
  genCallbacks : String → String → List (String × Nat)

/-! ## Data model -/

/-- The per-file grammar context (`SourceContext`): source text, error flag of
the last parse, whether interpreter data has been set up, and the contexts
this one was registered as a reference to (`addAsReferenceTo`). -/
structure SourceContext where
  fileName : String
  text : String
  hasErrors : Bool
  interpDataLoaded : Bool
  refs : List Nat
deriving DecidableEq, Repr

/-- A context-map entry: the id of its `SourceContext`, the reference count,
the resolved dependency file paths of the most recent parse, and the grammar
file name. -/
structure ContextEntry where
  context : Nat
  refCount : Int
  dependencies : List String
  grammar : String
deriving DecidableEq, Repr

/-- The facade state: the configured import directory, the context map
(file name → object id), the two object arenas, and the next fresh id. -/
structure AntlrFacade where
  importDir : String
  sourceContexts : List (String × Nat)
  entries : List (Nat × ContextEntry)
  contexts : List (Nat × SourceContext)
  nextId : Nat
deriving DecidableEq, Repr

/-- Mutate the entry object with id `id` (JS mutation through a reference). -/
def modifyEntry (f : AntlrFacade) (id : Nat) (g : ContextEntry → ContextEntry) :
    AntlrFacade :=
  match alFind f.entries id with
  | none => f
  | some e => { f with entries := alSet f.entries id (g e) }

/-- Mutate the context object with id `id`. -/
def modifyCtx (f : AntlrFacade) (id : Nat) (g : SourceContext → SourceContext) :
    AntlrFacade :=
  match alFind f.contexts id with
  | none => f
  | some c => { f with contexts := alSet f.contexts id (g c) }

/-- Modelled from the spec: `referencing.context.removeDependency(target)`
tears down the directed reference edge from context `refCtx` to context
`target`. -/
def removeDependencyOf (f : AntlrFacade) (refCtx target : Nat) : AntlrFacade :=
  modifyCtx f refCtx (fun c => { c with refs := c.refs.erase target })

/-- The effect of the optional `referencing` argument of
`internalReleaseGrammar`: absent → no change, present → remove the released
context from the referencing context. -/
def refRemoveOpt (f : AntlrFacade) (r : Option Nat) (target : Nat) :
    AntlrFacade :=
  match r with
  | none => f
  | some refCtx => removeDependencyOf f refCtx target

/-! ## Release (`internalReleaseGrammar`)

The source recursion deletes the map binding before recursing over the
deleted entry's dependencies, so the map size strictly decreases with the
recursion depth.  `releaseAux` takes the depth bound as fuel;
`internalReleaseGrammar` instantiates it with `map size + 1`, which is proved
sufficient below (`releaseAux_fuel_ge`). -/

def releaseAux : Nat → AntlrFacade → String → Option Nat → AntlrFacade
  | 0, f, _, _ => f
  | fuel + 1, f, fileName, referencing =>
    match alFind f.sourceContexts fileName with
    | none => f
    | some id =>
      match alFind f.entries id with
      | none => f
      | some e =>
        let f1 := match referencing with
          | none => f
          | some refCtx => removeDependencyOf f refCtx e.context
        let f2 := { f1 with
          entries := alSet f1.entries id { e with refCount := e.refCount - 1 } }
        if e.refCount - 1 = 0 then
          -- Release also all dependencies (the entry object, already removed
          -- from the map, is the referencing context of these releases).
          e.dependencies.foldl
            (fun acc d => releaseAux fuel acc d (some e.context))
            { f2 with sourceContexts := alErase f2.sourceContexts fileName }
        else f2

/-- The dependency loop of a zero-reaching release, as a function of the
remaining fuel. -/
def releaseDepsAux (fuel : Nat) (f : AntlrFacade) (deps : List String)
    (refCtx : Nat) : AntlrFacade :=
  deps.foldl (fun acc d => releaseAux fuel acc d (some refCtx)) f

/-- `internalReleaseGrammar`: release one reference to `fileName`; at zero,
remove the entry and recursively release its dependencies. -/
def internalReleaseGrammar (f : AntlrFacade) (fileName : String)
    (referencing : Option Nat) : AntlrFacade :=
  releaseAux (f.sourceContexts.length + 1) f fileName referencing

/-- Public `releaseGrammar`. -/
def releaseGrammar (f : AntlrFacade) (fileName : String) : AntlrFacade :=
  internalReleaseGrammar f fileName none

/-- The release loop at the end of `parseGrammar`:
`for (const dep of oldDependencies) { this.releaseGrammar(dep); }`. -/
def releaseOldDeps (f : AntlrFacade) (deps : List String) : AntlrFacade :=
  deps.foldl (fun acc d => releaseGrammar acc d) f

/-! ## The load cluster (`loadGrammar`, `parseGrammar`, `loadDependency`)

`loadGrammar` on an unknown file creates and registers the entry, then parses
it, which loads its dependencies, which may `loadGrammar` further unknown
files.  The fuel parameter bounds the depth of that fresh-load recursion; a
`loadGrammar` hit on an already-registered file takes the fast path and
consumes no fuel. -/

/-- The four operations of the load cluster at one fuel level. -/
structure ClusterOps where
  loadGrammarOp : AntlrFacade → String → Option String → AntlrFacade × Nat
  parseGrammarOp : AntlrFacade → Nat → AntlrFacade
  loadDepsLoopOp : AntlrFacade → Nat → List String → AntlrFacade
  loadDependencyOp : AntlrFacade → Nat → String → AntlrFacade × Option Nat

/-- One fuel level of the load cluster.  `parsePrev` is the parse operation
of the previous level; `none` marks fuel exhaustion, in which case a load of
a not-yet-registered file bails out with the sentinel context id 0 (ids of
real contexts start at 1). -/
def clusterLevel (env : CompilerModel) (fs : FileSystemModel)
    (parsePrev : Option (AntlrFacade → Nat → AntlrFacade)) : ClusterOps :=
  let load : AntlrFacade → String → Option String → AntlrFacade × Nat :=
    fun f fileName source =>
      match alFind f.sourceContexts fileName with
      | some id =>
        -- Already loaded: contextEntry.refCount++; return contextEntry.context.
        match alFind f.entries id with
        | none => (f, 0)
        | some e =>
          ({ f with
             entries := alSet f.entries id { e with refCount := e.refCount + 1 } },
           e.context)
      | none =>
        match parsePrev with
        | none => (f, 0)
        | some pp =>
          -- `if (!source)`: an absent or empty source argument triggers a
          -- disk read; a failing `statSync`/`readFileSync` yields "".
          let s0 := source.getD ""
          let src := if s0 = "" then
              (if fs.statOk fileName then fs.content fileName else "") else s0
          let id := f.nextId
          let ctx : SourceContext :=
            { fileName := fileName, text := "", hasErrors := false,
              interpDataLoaded := false, refs := [] }
          let e : ContextEntry :=
            { context := id, refCount := 0, dependencies := [],
              grammar := fileName }
          let f1 := { f with
            nextId := id + 1,
            contexts := alSet f.contexts id ctx,
            entries := alSet f.entries id e,
            sourceContexts := alSet f.sourceContexts fileName id }
          -- context.setText(source); initial parse run
          let f2 := modifyCtx f1 id (fun c => { c with text := src })
          let f3 := pp f2 id
          -- contextEntry.refCount++ (mutation through the object reference)
          let f4 := modifyEntry f3 id
            (fun e2 => { e2 with refCount := e2.refCount + 1 })
          (f4, id)
  let loadDep : AntlrFacade → Nat → String → AntlrFacade × Option Nat :=
    fun f eid depName =>
      match alFind f.entries eid with
      | none => (f, none)
      | some e =>
        let basePath := dirname e.grammar
        let fullPath := if isAbsolute f.importDir then f.importDir
          else pathJoin basePath f.importDir
        let p1 := pathJoin fullPath (depName ++ ".g4")
        if fs.readOk p1 then
          let fp := modifyEntry f eid
            (fun e2 => { e2 with dependencies := e2.dependencies ++ [p1] })
          let r := load fp p1 none
          (r.1, some r.2)
        else
          let p2 := pathJoin fullPath (depName ++ ".g")
          if fs.readOk p2 then
            let fp := modifyEntry f eid
              (fun e2 => { e2 with dependencies := e2.dependencies ++ [p2] })
            let r := load fp p2 none
            (r.1, some r.2)
          else
            let p3 := pathJoin basePath (depName ++ ".g4")
            if fs.statOk p3 then
              let fp := modifyEntry f eid
                (fun e2 => { e2 with dependencies := e2.dependencies ++ [p3] })
              let r := load fp p3 none
              (r.1, some r.2)
            else
              let p4 := pathJoin basePath (depName ++ ".g")
              if fs.statOk p4 then
                let fp := modifyEntry f eid
                  (fun e2 => { e2 with dependencies := e2.dependencies ++ [p4] })
                let r := load fp p4 none
                (r.1, some r.2)
              else
                -- Ignore the dependency if we cannot find its source file.
                (f, none)
  let loop : AntlrFacade → Nat → List String → AntlrFacade :=
    fun f eid deps =>
      deps.foldl (fun facc dep =>
        let r := loadDep facc eid dep
        match r.2 with
        | none => r.1
        | some cid =>
          -- contextEntry.context.addAsReferenceTo(depContext)
          match alFind r.1.entries eid with
          | none => r.1
          | some e =>
            modifyCtx r.1 e.context (fun c => { c with refs := c.refs ++ [cid] }))
        f
  let parse : AntlrFacade → Nat → AntlrFacade :=
    fun f eid =>
      match alFind f.entries eid with
      | none => f
      | some e =>
        let oldDependencies := e.dependencies
        let f1 := { f with
          entries := alSet f.entries eid { e with dependencies := [] } }
        match alFind f1.contexts e.context with
        | none => f1
        | some c =>
          -- context.parse(): yields the referenced grammar names and
          -- refreshes the error flag of the context.
          let newDependencies := env.parseDeps c.text
          let f2 := modifyCtx f1 e.context
            (fun c2 => { c2 with hasErrors := env.parseHasErrors c.text })
          let f3 := loop f2 eid newDependencies
          releaseOldDeps f3 oldDependencies
  { loadGrammarOp := load, parseGrammarOp := parse,
    loadDepsLoopOp := loop, loadDependencyOp := loadDep }

/-- The load cluster, by recursion on the fuel level: each fresh load's
initial parse runs at the previous level. -/
def cluster (env : CompilerModel) (fs : FileSystemModel) : Nat → ClusterOps
  | 0 => clusterLevel env fs none
  | fuel + 1 => clusterLevel env fs (some ((cluster env fs fuel).parseGrammarOp))

def loadGrammarAux (env : CompilerModel) (fs : FileSystemModel) (fuel : Nat)
    (f : AntlrFacade) (fileName : String) (source : Option String) :
    AntlrFacade × Nat :=
  (cluster env fs fuel).loadGrammarOp f fileName source

def parseGrammarAux (env : CompilerModel) (fs : FileSystemModel) (fuel : Nat)
    (f : AntlrFacade) (eid : Nat) : AntlrFacade :=
  (cluster env fs fuel).parseGrammarOp f eid

def loadDepsLoop (env : CompilerModel) (fs : FileSystemModel) (fuel : Nat)
    (f : AntlrFacade) (eid : Nat) (deps : List String) : AntlrFacade :=
  (cluster env fs fuel).loadDepsLoopOp f eid deps

def loadDependencyAux (env : CompilerModel) (fs : FileSystemModel) (fuel : Nat)
    (f : AntlrFacade) (eid : Nat) (depName : String) :
    AntlrFacade × Option Nat :=
  (cluster env fs fuel).loadDependencyOp f eid depName

/-- Public `loadGrammar` (fuel bounds the fresh-load recursion depth). -/
def loadGrammar (env : CompilerModel) (fs : FileSystemModel) (fuel : Nat)
    (f : AntlrFacade) (fileName : String) (source : Option String) :
    AntlrFacade × Nat :=
  loadGrammarAux env fs fuel f fileName source

/-- `getContext`: return the loaded context, loading on demand when absent. -/
def getContext (env : CompilerModel) (fs : FileSystemModel) (fuel : Nat)
    (f : AntlrFacade) (fileName : String) (source : Option String) :
    AntlrFacade × Nat :=
  match alFind f.sourceContexts fileName with
  | none => loadGrammarAux env fs fuel f fileName source
  | some id =>
    match alFind f.entries id with
    | none => (f, 0)
    | some e => (f, e.context)

/-- `setText`: refresh the stored source text; does nothing when the grammar
was never loaded. -/
def setText (f : AntlrFacade) (fileName source : String) : AntlrFacade :=
  match alFind f.sourceContexts fileName with
  | none => f
  | some id =>
    match alFind f.entries id with
    | none => f
    | some e => modifyCtx f e.context (fun c => { c with text := source })

/-- `reparse`: re-run the dependency-resolution parse for a loaded grammar;
does nothing when the grammar was never loaded. -/
def reparse (env : CompilerModel) (fs : FileSystemModel) (fuel : Nat)
    (f : AntlrFacade) (fileName : String) : AntlrFacade :=
  match alFind f.sourceContexts fileName with
  | none => f
  | some id => parseGrammarAux env fs fuel f id

/-! ## Dependency closure and the query surface -/

/-- `Set.add`: append when not yet present (JS `Set` keeps insertion order and
excludes duplicates). -/
def setAdd (acc : List Nat) (c : Nat) : List Nat :=
  if c ∈ acc then acc else acc ++ [c]

/-- `pushDependencyFiles(entry, contexts)`: depth-first walk over the resolved
dependency paths, recursing before adding each dependency's context to the
set.  The source recursion has no cycle guard before recursing (the set is
only consulted on `add`), so the model bounds the depth with fuel. -/
def pushDependencyFilesInto (f : AntlrFacade) : Nat → Nat → List Nat → List Nat
  | 0, _, acc => acc
  | fuel + 1, eid, acc =>
    match alFind f.entries eid with
    | none => acc
    | some e =>
      e.dependencies.foldl (fun a d =>
        match alFind f.sourceContexts d with
        | none => a
        | some did =>
          match alFind f.entries did with
          | none => a
          | some de => setAdd (pushDependencyFilesInto f fuel did a) de.context)
        acc

/-- One step of the `pushDependencyFiles` walk: look up one resolved
dependency path and, when registered, add its context after recursing into
it. -/
def pushStep (f : AntlrFacade) (fuel : Nat) (a : List Nat) (d : String) :
    List Nat :=
  match alFind f.sourceContexts d with
  | none => a
  | some did =>
    match alFind f.entries did with
    | none => a
    | some de => setAdd (pushDependencyFilesInto f fuel did a) de.context

/-- The inner loop of `pushDependencyFiles` over a resolved dependency list,
recursing at fuel level `fuel`. -/
def pushDepsListInto (f : AntlrFacade) (fuel : Nat) (deps : List String)
    (acc : List Nat) : List Nat :=
  deps.foldl (pushStep f fuel) acc

/-- The dependency-context closure gathered by the cross-file queries (fuel
`map size + 1` covers every acyclic dependency graph; on a cyclic one the
source recursion would not terminate at all). -/
def pushDependencyFiles (f : AntlrFacade) (eid : Nat) : List Nat :=
  pushDependencyFilesInto f (f.sourceContexts.length + 1) eid []

/-- `eid` reaches context `c` through `n ≥ 1` resolved dependency edges:
an edge goes from an entry to the context of the entry bound to one of its
resolved dependency paths. -/
inductive ReachesCtx (f : AntlrFacade) : Nat → Nat → Nat → Prop where
  | direct (eid : Nat) (e : ContextEntry) (d : String) (did : Nat)
      (de : ContextEntry) :
      alFind f.entries eid = some e → d ∈ e.dependencies →
      alFind f.sourceContexts d = some did → alFind f.entries did = some de →
      ReachesCtx f eid de.context 1
  | step (eid : Nat) (e : ContextEntry) (d : String) (did : Nat)
      (de : ContextEntry) (c n : Nat) :
      alFind f.entries eid = some e → d ∈ e.dependencies →
      alFind f.sourceContexts d = some did → alFind f.entries did = some de →
      ReachesCtx f did c n → ReachesCtx f eid c (n + 1)

/-- An external single-context call observed at the facade boundary: the
context the query is delegated to and the dependency contexts forwarded with
it. -/
structure QueryCall where
  state : AntlrFacade
  ctx : Nat
  forwarded : List Nat
deriving DecidableEq, Repr

/-- `getDiagnostics`: resolves the context and calls
`context.getDiagnostics()` — no dependency contexts are passed along. -/
def getDiagnostics (env : CompilerModel) (fs : FileSystemModel) (fuel : Nat)
    (f : AntlrFacade) (fileName : String) : QueryCall :=
  let r := getContext env fs fuel f fileName none
  { state := r.1, ctx := r.2, forwarded := [] }

/-- `countReferences`: resolves the context and calls
`context.getReferenceCount(symbol)` — no dependency contexts are passed. -/
def countReferences (env : CompilerModel) (fs : FileSystemModel) (fuel : Nat)
    (f : AntlrFacade) (fileName symbol : String) : QueryCall :=
  let r := getContext env fs fuel f fileName none
  { state := r.1, ctx := r.2, forwarded := [] }

/-- `symbolInfoAtPosition`: resolves the context and calls
`context.symbolAtPosition(column, row, limitToChildren)` — single file. -/
def symbolInfoAtPosition (env : CompilerModel) (fs : FileSystemModel)
    (fuel : Nat) (f : AntlrFacade) (fileName : String) (column row : Nat)
    (limitToChildren : Bool) : QueryCall :=
  let r := getContext env fs fuel f fileName none
  { state := r.1, ctx := r.2, forwarded := [] }

/-- `generate`: resolves the context, gathers the dependency closure and
calls `context.generate(dependencies, options)`. -/
def generate (env : CompilerModel) (fs : FileSystemModel) (fuel : Nat)
    (f : AntlrFacade) (fileName : String) : QueryCall :=
  let r := getContext env fs fuel f fileName none
  match alFind r.1.sourceContexts fileName with
  | none => { state := r.1, ctx := r.2, forwarded := [] }
  | some eid =>
    { state := r.1, ctx := r.2, forwarded := pushDependencyFiles r.1 eid }

/-- The per-dependency loop shared by `generateSentence` and
`createDebugger`: abort on the first context with errors, otherwise set up
interpreter data where it is not loaded yet.  Returns the final state and
whether an erroring context was hit. -/
def depsErrorCheckLoop (f : AntlrFacade) : List Nat → AntlrFacade × Bool
  | [] => (f, false)
  | cid :: rest =>
    match alFind f.contexts cid with
    | none => depsErrorCheckLoop f rest
    | some c =>
      if c.hasErrors then (f, true)
      else
        let f1 := if c.interpDataLoaded then f
          else modifyCtx f cid (fun c2 => { c2 with interpDataLoaded := true })
        depsErrorCheckLoop f1 rest

/-- Observable outcome of `generateSentence`: the callback invocations in
order, the dependency contexts forwarded to `context.generateSentence`, and
whether that external generation call was reached at all. -/
structure SentenceRun where
  state : AntlrFacade
  calls : List (String × Nat)
  forwarded : List Nat
  invoked : Bool
deriving DecidableEq, Repr

/-- `generateSentence`: resolves the context, gathers the dependency closure,
aborts with one `"[Fix grammar errors first]"` callback when a dependency
context has errors, and otherwise delegates to `context.generateSentence`
with the closure. -/
def generateSentence (env : CompilerModel) (fs : FileSystemModel) (fuel : Nat)
    (f : AntlrFacade) (fileName rule : String) : SentenceRun :=
  let r := getContext env fs fuel f fileName none
  match alFind r.1.sourceContexts fileName with
  | none => { state := r.1, calls := [], forwarded := [], invoked := false }
  | some eid =>
    let deps := pushDependencyFiles r.1 eid
    match depsErrorCheckLoop r.1 deps with
    | (f2, true) =>
      { state := f2, calls := [("[Fix grammar errors first]", 0)],
        forwarded := [], invoked := false }
    | (f2, false) =>
      let text := match alFind f2.contexts r.2 with
        | some c => c.text
        | none => ""
      { state := f2, calls := env.genCallbacks text rule,
        forwarded := deps, invoked := true }

/-- Observable outcome of `createDebugger`: when no involved context has
errors, the contexts handed to the debugger (the queried context followed by
its dependency closure); otherwise no debugger is created. -/
structure DebuggerResult where
  state : AntlrFacade
  debuggerContexts : Option (List Nat)
deriving DecidableEq, Repr

/-- `createDebugger`: the gathered set starts with the queried context itself
and is extended with the dependency closure; any context with errors aborts
the creation. -/
def createDebugger (env : CompilerModel) (fs : FileSystemModel) (fuel : Nat)
    (f : AntlrFacade) (fileName : String) : DebuggerResult :=
  let r := getContext env fs fuel f fileName none
  match alFind r.1.sourceContexts fileName with
  | none => { state := r.1, debuggerContexts := none }
  | some eid =>
    let ctxs := pushDependencyFilesInto r.1 (r.1.sourceContexts.length + 1) eid
      (setAdd [] r.2)
    match depsErrorCheckLoop r.1 ctxs with
    | (f2, true) => { state := f2, debuggerContexts := none }
    | (f2, false) => { state := f2, debuggerContexts := some ctxs }

/-! ## Self diagnostics -/

/-- Info object returned by `getSelfDiagnostics`. -/
structure SelfDiagnostics where
  contextCount : Nat
deriving DecidableEq, Repr

/-- The value of the JavaScript expression `this.sourceContexts.keys.length`:
`keys` is the (uncalled) `Map.prototype.keys` method, a function object, and
the `length` property of a function is its declared-parameter count — 0 for
`Map.prototype.keys`. -/
def mapKeysMethodParamCount : Nat := 0

/-- `getSelfDiagnostics`: reports `sourceContexts.keys.length`. -/
def getSelfDiagnostics (f : AntlrFacade) : SelfDiagnostics :=
  { contextCount := mapKeysMethodParamCount }

/-! ## Concrete sample worlds used to instantiate the theorems -/

/-- A compiler model where every text parses to no dependencies and no
errors. -/
def sampleEnv : CompilerModel :=
  { parseDeps := fun _ => [], parseHasErrors := fun _ => false,
    genCallbacks := fun _ _ => [] }

/-- A file system with no files. -/
def sampleFs : FileSystemModel :=
  { statOk := fun _ => false, readOk := fun _ => false, content := fun _ => "" }

/-- A freshly constructed facade (import directory `/i`). -/
def emptyFacade : AntlrFacade :=
  { importDir := "/i", sourceContexts := [], entries := [], contexts := [],
    nextId := 1 }

/-- The facade state after the first load in the C1 witness scenario. -/
def c1Facade : AntlrFacade :=
  { importDir := "/i", sourceContexts := [("A.g4", 1)],
    entries := [(1, { context := 1, refCount := 1, dependencies := [],
                      grammar := "A.g4" })],
    contexts := [(1, { fileName := "A.g4", text := "", hasErrors := false,
                       interpDataLoaded := false, refs := [] })],
    nextId := 2 }

/-- A facade whose single entry lists its own file name as a dependency —
a dependency cycle in the stored path lists. -/
def cyclicFacade : AntlrFacade :=
  { importDir := "/i", sourceContexts := [("A.g4", 1)],
    entries := [(1, { context := 1, refCount := 1, dependencies := ["A.g4"],
                      grammar := "A.g4" })],
    contexts := [(1, { fileName := "A.g4", text := "", hasErrors := false,
                       interpDataLoaded := false, refs := [] })],
    nextId := 2 }

/-- A facade with one loaded grammar `G.g4` (no dependencies yet), import
directory `/i`. -/
def depFacade : AntlrFacade :=
  { importDir := "/i", sourceContexts := [("G.g4", 1)],
    entries := [(1, { context := 1, refCount := 1, dependencies := [],
                      grammar := "G.g4" })],
    contexts := [(1, { fileName := "G.g4", text := "", hasErrors := false,
                       interpDataLoaded := false, refs := [] })],
    nextId := 2 }

/-- A file system containing exactly `/i/B.g4`. -/
def depFs : FileSystemModel :=
  { statOk := fun p => decide (p = "/i/B.g4"),
    readOk := fun p => decide (p = "/i/B.g4"),
    content := fun _ => "" }

/-- A facade where `G.g4` (count 1) resolves two leaf dependencies:
`/i/A.g4` referenced only by `G` (count 1) and `/i/B.g4` shared with another
live holder (count 2). -/
def c2Facade : AntlrFacade :=
  { importDir := "/i",
    sourceContexts := [("G.g4", 1), ("/i/A.g4", 2), ("/i/B.g4", 3)],
    entries :=
      [(1, { context := 1, refCount := 1,
             dependencies := ["/i/A.g4", "/i/B.g4"], grammar := "G.g4" }),
       (2, { context := 2, refCount := 1, dependencies := [],
             grammar := "/i/A.g4" }),
       (3, { context := 3, refCount := 2, dependencies := [],
             grammar := "/i/B.g4" })],
    contexts :=
      [(1, { fileName := "G.g4", text := "", hasErrors := false,
             interpDataLoaded := false, refs := [2, 3] }),
       (2, { fileName := "/i/A.g4", text := "", hasErrors := false,
             interpDataLoaded := false, refs := [] }),
       (3, { fileName := "/i/B.g4", text := "", hasErrors := false,
             interpDataLoaded := false, refs := [] })],
    nextId := 4 }

/-- A compiler model where the text `gT` references the grammar name `B`
and every other text references nothing. -/
def c3Env : CompilerModel :=
  { parseDeps := fun t => if t = "gT" then ["B"] else [],
    parseHasErrors := fun _ => false, genCallbacks := fun _ _ => [] }

/-- A file system containing exactly `/i/B.g4`. -/
def c3Fs : FileSystemModel :=
  { statOk := fun p => decide (p = "/i/B.g4"),
    readOk := fun p => decide (p = "/i/B.g4"),
    content := fun _ => "" }

/-- The C3 counterexample state: `G.g4` previously resolved `/i/A.g4` and
`/i/B.g4`; the old dependency `/i/A.g4` (held only by `G`) itself resolved
`/i/B.g4`, so `/i/B.g4` is held twice (count 2).  `G`'s current text `gT`
now resolves only `B`. -/
def c3Facade : AntlrFacade :=
  { importDir := "/i",
    sourceContexts := [("G.g4", 1), ("/i/A.g4", 2), ("/i/B.g4", 3)],
    entries :=
      [(1, { context := 1, refCount := 1,
             dependencies := ["/i/A.g4", "/i/B.g4"], grammar := "G.g4" }),
       (2, { context := 2, refCount := 1, dependencies := ["/i/B.g4"],
             grammar := "/i/A.g4" }),
       (3, { context := 3, refCount := 2, dependencies := [],
             grammar := "/i/B.g4" })],
    contexts :=
      [(1, { fileName := "G.g4", text := "gT", hasErrors := false,
             interpDataLoaded := false, refs := [2, 3] }),
       (2, { fileName := "/i/A.g4", text := "", hasErrors := false,
             interpDataLoaded := false, refs := [3] }),
       (3, { fileName := "/i/B.g4", text := "", hasErrors := false,
             interpDataLoaded := false, refs := [] })],
    nextId := 4 }

/-- The C3 witness state: as `c3Facade`, but the old dependencies are leaf
entries (`/i/A.g4` resolves nothing), so no cascaded release occurs. -/
def c3wFacade : AntlrFacade :=
  { importDir := "/i",
    sourceContexts := [("G.g4", 1), ("/i/A.g4", 2), ("/i/B.g4", 3)],
    entries :=
      [(1, { context := 1, refCount := 1,
             dependencies := ["/i/A.g4", "/i/B.g4"], grammar := "G.g4" }),
       (2, { context := 2, refCount := 1, dependencies := [],
             grammar := "/i/A.g4" }),
       (3, { context := 3, refCount := 2, dependencies := [],
             grammar := "/i/B.g4" })],
    contexts :=
      [(1, { fileName := "G.g4", text := "gT", hasErrors := false,
             interpDataLoaded := false, refs := [2, 3] }),
       (2, { fileName := "/i/A.g4", text := "", hasErrors := false,
             interpDataLoaded := false, refs := [] }),
       (3, { fileName := "/i/B.g4", text := "", hasErrors := false,
             interpDataLoaded := false, refs := [] })],
    nextId := 4 }

/-- A facade where `G.g4` (whose own context has errors) depends on the
error-free leaf `/i/D.g4`. -/
def c10Facade : AntlrFacade :=
  { importDir := "/i",
    sourceContexts := [("G.g4", 1), ("/i/D.g4", 2)],
    entries :=
      [(1, { context := 1, refCount := 1, dependencies := ["/i/D.g4"],
             grammar := "G.g4" }),
       (2, { context := 2, refCount := 1, dependencies := [],
             grammar := "/i/D.g4" })],
    contexts :=
      [(1, { fileName := "G.g4", text := "", hasErrors := true,
             interpDataLoaded := false, refs := [2] }),
       (2, { fileName := "/i/D.g4", text := "", hasErrors := false,
             interpDataLoaded := false, refs := [] })],
    nextId := 3 }

/-- As `c10Facade`, but the dependency context has errors. -/
def c10eFacade : AntlrFacade :=
  { importDir := "/i",
    sourceContexts := [("G.g4", 1), ("/i/D.g4", 2)],
    entries :=
      [(1, { context := 1, refCount := 1, dependencies := ["/i/D.g4"],
             grammar := "G.g4" }),
       (2, { context := 2, refCount := 1, dependencies := [],
             grammar := "/i/D.g4" })],
    contexts :=
      [(1, { fileName := "G.g4", text := "", hasErrors := false,
             interpDataLoaded := false, refs := [2] }),
       (2, { fileName := "/i/D.g4", text := "", hasErrors := true,
             interpDataLoaded := false, refs := [] })],
    nextId := 3 }

/-- As `c10Facade`, but every context is error-free. -/
def c4Facade : AntlrFacade :=
  { importDir := "/i",
    sourceContexts := [("G.g4", 1), ("/i/D.g4", 2)],
    entries :=
      [(1, { context := 1, refCount := 1, dependencies := ["/i/D.g4"],
             grammar := "G.g4" }),
       (2, { context := 2, refCount := 1, dependencies := [],
             grammar := "/i/D.g4" })],
    contexts :=
      [(1, { fileName := "G.g4", text := "", hasErrors := false,
             interpDataLoaded := false, refs := [2] }),
       (2, { fileName := "/i/D.g4", text := "", hasErrors := false,
             interpDataLoaded := false, refs := [] })],
    nextId := 3 }

/-! ## Lemmas about association lists -/

theorem alFind_alSet_self {κ α : Type} [DecidableEq κ] (l : List (κ × α))
    (k : κ) (v : α) : alFind (alSet l k v) k = some v := by
  induction l with
  | nil => simp [alSet, alFind]
  | cons p rest ih =>
    by_cases h : p.1 = k
    · simp [alSet, alFind, h]
    · simp [alSet, alFind, h, ih]

theorem alFind_alSet_ne {κ α : Type} [DecidableEq κ] (l : List (κ × α))
    (k k' : κ) (v : α) (h : k' ≠ k) :
    alFind (alSet l k v) k' = alFind l k' := by
  have hk : ¬ k = k' := fun hh => h hh.symm
  induction l with
  | nil => simp [alSet, alFind, hk]
  | cons p rest ih =>
    obtain ⟨pk, pv⟩ := p
    by_cases hp : pk = k
    · subst hp
      simp [alSet, alFind, hk]
    · by_cases hp' : pk = k'
      · subst hp'
        simp [alSet, alFind, hp]
      · simp [alSet, alFind, hp, hp', ih]

theorem alFind_alErase_self {κ α : Type} [DecidableEq κ] (l : List (κ × α))
    (k : κ) : alFind (alErase l k) k = none := by
  induction l with
  | nil => rfl
  | cons p rest ih =>
    obtain ⟨pk, pv⟩ := p
    by_cases hp : pk = k
    · simpa [alErase, hp] using ih
    · simpa [alErase, alFind, hp] using ih

theorem alFind_alErase_ne {κ α : Type} [DecidableEq κ] (l : List (κ × α))
    (k k' : κ) (h : k' ≠ k) : alFind (alErase l k) k' = alFind l k' := by
  induction l with
  | nil => rfl
  | cons p rest ih =>
    obtain ⟨pk, pv⟩ := p
    by_cases hp : pk = k
    · subst hp
      have hpk : ¬ pk = k' := fun hh => h hh.symm
      simpa [alErase, alFind, hpk] using ih
    · by_cases hp' : pk = k'
      · subst hp'
        simp [alErase, alFind, hp]
      · simpa [alErase, alFind, hp, hp'] using ih

theorem length_alErase_le {κ α : Type} [DecidableEq κ] (l : List (κ × α))
    (k : κ) : (alErase l k).length ≤ l.length := by
  induction l with
  | nil => simp [alErase]
  | cons p rest ih =>
    by_cases hp : p.1 = k
    · simp only [alErase]
      rw [if_pos hp]
      exact Nat.le_succ_of_le ih
    · simp only [alErase]
      rw [if_neg hp]
      simpa using Nat.succ_le_succ ih

theorem length_alErase_lt {κ α : Type} [DecidableEq κ] (l : List (κ × α))
    (k : κ) (v : α) (h : alFind l k = some v) :
    (alErase l k).length < l.length := by
  induction l with
  | nil => simp [alFind] at h
  | cons p rest ih =>
    by_cases hp : p.1 = k
    · simp only [alErase]
      rw [if_pos hp]
      exact Nat.lt_succ_of_le (length_alErase_le rest k)
    · simp only [alFind, if_neg hp] at h
      simp only [alErase]
      rw [if_neg hp]
      simpa using Nat.succ_lt_succ (ih h)

theorem length_pos_of_alFind {κ α : Type} [DecidableEq κ] (l : List (κ × α))
    (k : κ) (v : α) (h : alFind l k = some v) : 0 < l.length := by
  cases l with
  | nil => simp [alFind] at h
  | cons p rest => simp

/-! ## Projection lemmas for the state mutators -/

@[simp] theorem modifyCtx_sourceContexts (f : AntlrFacade) (id : Nat)
    (g : SourceContext → SourceContext) :
    (modifyCtx f id g).sourceContexts = f.sourceContexts := by
  unfold modifyCtx; cases alFind f.contexts id <;> rfl

@[simp] theorem modifyCtx_entries (f : AntlrFacade) (id : Nat)
    (g : SourceContext → SourceContext) :
    (modifyCtx f id g).entries = f.entries := by
  unfold modifyCtx; cases alFind f.contexts id <;> rfl

@[simp] theorem modifyCtx_importDir (f : AntlrFacade) (id : Nat)
    (g : SourceContext → SourceContext) :
    (modifyCtx f id g).importDir = f.importDir := by
  unfold modifyCtx; cases alFind f.contexts id <;> rfl

@[simp] theorem modifyCtx_nextId (f : AntlrFacade) (id : Nat)
    (g : SourceContext → SourceContext) :
    (modifyCtx f id g).nextId = f.nextId := by
  unfold modifyCtx; cases alFind f.contexts id <;> rfl

@[simp] theorem modifyEntry_sourceContexts (f : AntlrFacade) (id : Nat)
    (g : ContextEntry → ContextEntry) :
    (modifyEntry f id g).sourceContexts = f.sourceContexts := by
  unfold modifyEntry; cases alFind f.entries id <;> rfl

@[simp] theorem modifyEntry_contexts (f : AntlrFacade) (id : Nat)
    (g : ContextEntry → ContextEntry) :
    (modifyEntry f id g).contexts = f.contexts := by
  unfold modifyEntry; cases alFind f.entries id <;> rfl

@[simp] theorem modifyEntry_importDir (f : AntlrFacade) (id : Nat)
    (g : ContextEntry → ContextEntry) :
    (modifyEntry f id g).importDir = f.importDir := by
  unfold modifyEntry; cases alFind f.entries id <;> rfl

@[simp] theorem modifyEntry_nextId (f : AntlrFacade) (id : Nat)
    (g : ContextEntry → ContextEntry) :
    (modifyEntry f id g).nextId = f.nextId := by
  unfold modifyEntry; cases alFind f.entries id <;> rfl

@[simp] theorem removeDependencyOf_sourceContexts (f : AntlrFacade)
    (rc t : Nat) :
    (removeDependencyOf f rc t).sourceContexts = f.sourceContexts := by
  unfold removeDependencyOf; simp

@[simp] theorem removeDependencyOf_entries (f : AntlrFacade) (rc t : Nat) :
    (removeDependencyOf f rc t).entries = f.entries := by
  unfold removeDependencyOf; simp

@[simp] theorem removeDependencyOf_importDir (f : AntlrFacade) (rc t : Nat) :
    (removeDependencyOf f rc t).importDir = f.importDir := by
  unfold removeDependencyOf; simp

@[simp] theorem removeDependencyOf_nextId (f : AntlrFacade) (rc t : Nat) :
    (removeDependencyOf f rc t).nextId = f.nextId := by
  unfold removeDependencyOf; simp

@[simp] theorem refRemoveOpt_sourceContexts (f : AntlrFacade) (r : Option Nat)
    (t : Nat) : (refRemoveOpt f r t).sourceContexts = f.sourceContexts := by
  cases r <;> simp [refRemoveOpt]

@[simp] theorem refRemoveOpt_entries (f : AntlrFacade) (r : Option Nat)
    (t : Nat) : (refRemoveOpt f r t).entries = f.entries := by
  cases r <;> simp [refRemoveOpt]

@[simp] theorem refRemoveOpt_importDir (f : AntlrFacade) (r : Option Nat)
    (t : Nat) : (refRemoveOpt f r t).importDir = f.importDir := by
  cases r <;> simp [refRemoveOpt]

@[simp] theorem refRemoveOpt_nextId (f : AntlrFacade) (r : Option Nat)
    (t : Nat) : (refRemoveOpt f r t).nextId = f.nextId := by
  cases r <;> simp [refRemoveOpt]

theorem alFind_alErase_none {κ α : Type} [DecidableEq κ] (l : List (κ × α))
    (k m : κ) (h : alFind l m = none) : alFind (alErase l k) m = none := by
  by_cases hm : m = k
  · subst hm; exact alFind_alErase_self l m
  · rw [alFind_alErase_ne l k m hm]; exact h

/-! ## Release metatheory -/

theorem releaseAux_zero (f : AntlrFacade) (n : String) (r : Option Nat) :
    releaseAux 0 f n r = f := by
  simp [releaseAux]

theorem releaseDepsAux_nil (fuel : Nat) (f : AntlrFacade) (c : Nat) :
    releaseDepsAux fuel f [] c = f := by
  simp [releaseDepsAux]

theorem releaseDepsAux_cons (fuel : Nat) (f : AntlrFacade) (d : String)
    (rest : List String) (c : Nat) :
    releaseDepsAux fuel f (d :: rest) c =
      releaseDepsAux fuel (releaseAux fuel f d (some c)) rest c := rfl

theorem releaseAux_not_found (fuel : Nat) (f : AntlrFacade) (n : String)
    (r : Option Nat) (h : alFind f.sourceContexts n = none) :
    releaseAux (fuel + 1) f n r = f := by
  rw [releaseAux]
  simp only [h]

theorem releaseAux_no_entry (fuel : Nat) (f : AntlrFacade) (n : String)
    (r : Option Nat) (id : Nat)
    (h1 : alFind f.sourceContexts n = some id)
    (h2 : alFind f.entries id = none) :
    releaseAux (fuel + 1) f n r = f := by
  rw [releaseAux]
  simp only [h1, h2]

theorem releaseAux_stay (fuel : Nat) (f : AntlrFacade) (n : String)
    (r : Option Nat) (id : Nat) (e : ContextEntry)
    (h1 : alFind f.sourceContexts n = some id)
    (h2 : alFind f.entries id = some e)
    (h3 : ¬ e.refCount - 1 = 0) :
    releaseAux (fuel + 1) f n r =
      { refRemoveOpt f r e.context with
        entries := alSet f.entries id { e with refCount := e.refCount - 1 } } := by
  rw [releaseAux]
  simp only [h1, h2, if_neg h3]
  cases r <;> simp [refRemoveOpt]

theorem releaseAux_zeroed (fuel : Nat) (f : AntlrFacade) (n : String)
    (r : Option Nat) (id : Nat) (e : ContextEntry)
    (h1 : alFind f.sourceContexts n = some id)
    (h2 : alFind f.entries id = some e)
    (h3 : e.refCount - 1 = 0) :
    releaseAux (fuel + 1) f n r =
      releaseDepsAux fuel
        { refRemoveOpt f r e.context with
          sourceContexts := alErase f.sourceContexts n,
          entries := alSet f.entries id { e with refCount := e.refCount - 1 } }
        e.dependencies e.context := by
  rw [releaseAux]
  simp only [h1, h2, if_pos h3]
  cases r <;> simp [refRemoveOpt, releaseDepsAux]

/-- Release never creates a map binding: a name absent from the context map
stays absent through any release. -/
theorem release_preserves_absent (fuel : Nat) :
    (∀ f n r m, alFind f.sourceContexts m = none →
      alFind (releaseAux fuel f n r).sourceContexts m = none) ∧
    (∀ f ds c m, alFind f.sourceContexts m = none →
      alFind (releaseDepsAux fuel f ds c).sourceContexts m = none) := by
  induction fuel with
  | zero =>
    constructor
    · intro f n r m h
      simpa [releaseAux_zero] using h
    · intro f ds c m h
      induction ds generalizing f with
      | nil => simpa [releaseDepsAux_nil] using h
      | cons d rest ih =>
        rw [releaseDepsAux_cons, releaseAux_zero]
        exact ih f h
  | succ fuel ih =>
    have h1 : ∀ f n r m, alFind f.sourceContexts m = none →
        alFind (releaseAux (fuel + 1) f n r).sourceContexts m = none := by
      intro f n r m h
      cases hfind : alFind f.sourceContexts n with
      | none => rw [releaseAux_not_found fuel f n r hfind]; exact h
      | some id =>
        cases hent : alFind f.entries id with
        | none => rw [releaseAux_no_entry fuel f n r id hfind hent]; exact h
        | some e =>
          by_cases hz : e.refCount - 1 = 0
          · rw [releaseAux_zeroed fuel f n r id e hfind hent hz]
            apply ih.2
            exact alFind_alErase_none _ _ _ h
          · rw [releaseAux_stay fuel f n r id e hfind hent hz]
            simpa using h
    refine ⟨h1, ?_⟩
    intro f ds c m h
    induction ds generalizing f with
    | nil => simpa [releaseDepsAux_nil] using h
    | cons d rest ihds =>
      rw [releaseDepsAux_cons]
      exact ihds _ (h1 f d (some c) m h)

/-- Release never grows the context map. -/
theorem release_length_le (fuel : Nat) :
    (∀ f n r, (releaseAux fuel f n r).sourceContexts.length ≤
      f.sourceContexts.length) ∧
    (∀ f ds c, (releaseDepsAux fuel f ds c).sourceContexts.length ≤
      f.sourceContexts.length) := by
  induction fuel with
  | zero =>
    constructor
    · intro f n r
      simp [releaseAux_zero]
    · intro f ds c
      induction ds generalizing f with
      | nil => simp [releaseDepsAux_nil]
      | cons d rest ih =>
        rw [releaseDepsAux_cons, releaseAux_zero]
        exact ih f
  | succ fuel ih =>
    have h1 : ∀ f n r, (releaseAux (fuel + 1) f n r).sourceContexts.length ≤
        f.sourceContexts.length := by
      intro f n r
      cases hfind : alFind f.sourceContexts n with
      | none => rw [releaseAux_not_found fuel f n r hfind]
      | some id =>
        cases hent : alFind f.entries id with
        | none => rw [releaseAux_no_entry fuel f n r id hfind hent]
        | some e =>
          by_cases hz : e.refCount - 1 = 0
          · rw [releaseAux_zeroed fuel f n r id e hfind hent hz]
            refine Nat.le_trans (ih.2 _ _ _) ?_
            simpa using length_alErase_le _ _
          · rw [releaseAux_stay fuel f n r id e hfind hent hz]
            simp
    refine ⟨h1, ?_⟩
    intro f ds c
    induction ds generalizing f with
    | nil => simp [releaseDepsAux_nil]
    | cons d rest ihds =>
      rw [releaseDepsAux_cons]
      exact Nat.le_trans (ihds _) (h1 f d (some c))

/-- One extra unit of fuel changes nothing once the fuel exceeds the map
size: the recursion erases a binding before every recursive descent. -/
theorem release_fuel_stable (fuel : Nat) :
    (∀ f n r, f.sourceContexts.length < fuel →
      releaseAux fuel f n r = releaseAux (fuel + 1) f n r) ∧
    (∀ f ds c, f.sourceContexts.length < fuel →
      releaseDepsAux fuel f ds c = releaseDepsAux (fuel + 1) f ds c) := by
  induction fuel with
  | zero =>
    constructor
    · intro f n r h
      exact absurd h (Nat.not_lt_zero _)
    · intro f ds c h
      exact absurd h (Nat.not_lt_zero _)
  | succ fuel ih =>
    have h1 : ∀ f n r, f.sourceContexts.length < fuel + 1 →
        releaseAux (fuel + 1) f n r = releaseAux (fuel + 1 + 1) f n r := by
      intro f n r h
      cases hfind : alFind f.sourceContexts n with
      | none =>
        rw [releaseAux_not_found fuel f n r hfind,
          releaseAux_not_found (fuel + 1) f n r hfind]
      | some id =>
        cases hent : alFind f.entries id with
        | none =>
          rw [releaseAux_no_entry fuel f n r id hfind hent,
            releaseAux_no_entry (fuel + 1) f n r id hfind hent]
        | some e =>
          by_cases hz : e.refCount - 1 = 0
          · rw [releaseAux_zeroed fuel f n r id e hfind hent hz,
              releaseAux_zeroed (fuel + 1) f n r id e hfind hent hz]
            apply ih.2
            have hlt : (alErase f.sourceContexts n).length <
                f.sourceContexts.length :=
              length_alErase_lt _ _ _ hfind
            have hle : f.sourceContexts.length ≤ fuel := Nat.lt_succ_iff.mp h
            simpa using Nat.lt_of_lt_of_le hlt hle
          · rw [releaseAux_stay fuel f n r id e hfind hent hz,
              releaseAux_stay (fuel + 1) f n r id e hfind hent hz]
    refine ⟨h1, ?_⟩
    intro f ds c h
    induction ds generalizing f with
    | nil => rw [releaseDepsAux_nil, releaseDepsAux_nil]
    | cons d rest ihds =>
      rw [releaseDepsAux_cons, releaseDepsAux_cons, ← h1 f d (some c) h]
      apply ihds
      exact Nat.lt_of_le_of_lt ((release_length_le (fuel + 1)).1 f d (some c)) h

/-- Any fuel above the map size computes `internalReleaseGrammar`. -/
theorem releaseAux_eq_internal (fuel : Nat) (f : AntlrFacade) (n : String)
    (r : Option Nat) (h : f.sourceContexts.length < fuel) :
    releaseAux fuel f n r = internalReleaseGrammar f n r := by
  unfold internalReleaseGrammar
  obtain ⟨k, rfl⟩ : ∃ k, fuel = (f.sourceContexts.length + 1) + k :=
    ⟨fuel - (f.sourceContexts.length + 1), by omega⟩
  induction k with
  | zero => rfl
  | succ k ihk =>
    have hlt : f.sourceContexts.length < f.sourceContexts.length + 1 + k := by
      omega
    have heq : f.sourceContexts.length + 1 + (k + 1) =
        (f.sourceContexts.length + 1 + k) + 1 := by omega
    rw [heq, ← (release_fuel_stable (f.sourceContexts.length + 1 + k)).1 f n r hlt]
    exact ihk (by omega)

/-! ## Releasing leaf entries (entries with no resolved dependencies) -/

/-- Full description of one release step on an entry whose dependency list is
empty: the entry object's count is decremented in the arena, and the map
binding disappears exactly when the count was 1. -/
theorem releaseAux_leaf (fuel : Nat) (f : AntlrFacade) (n : String)
    (r : Option Nat) (id : Nat) (e : ContextEntry)
    (h1 : alFind f.sourceContexts n = some id)
    (h2 : alFind f.entries id = some e)
    (h3 : e.dependencies = []) :
    releaseAux (fuel + 1) f n r =
      { refRemoveOpt f r e.context with
        sourceContexts := if e.refCount = 1
          then alErase f.sourceContexts n else f.sourceContexts,
        entries := alSet f.entries id { e with refCount := e.refCount - 1 } } := by
  by_cases hz : e.refCount - 1 = 0
  · have hz1 : e.refCount = 1 := by omega
    rw [releaseAux_zeroed fuel f n r id e h1 h2 hz, h3, releaseDepsAux_nil]
    simp [hz1]
  · have hz1 : ¬ e.refCount = 1 := by omega
    rw [releaseAux_stay fuel f n r id e h1 h2 hz]
    simp [hz1]

/-- Releasing a list of leaf entries with pairwise distinct names and entry
ids: each listed entry's count drops by one (its binding disappears exactly
when the count was 1), and all other bindings and entry objects are
untouched. -/
theorem releaseDepsAux_leaves (ids : String → Nat)
    (ents : String → ContextEntry) :
    ∀ (ds : List String) (f : AntlrFacade) (fuel : Nat) (refCtx : Nat),
    0 < fuel →
    (∀ d ∈ ds, alFind f.sourceContexts d = some (ids d) ∧
      alFind f.entries (ids d) = some (ents d) ∧ (ents d).dependencies = []) →
    ds.Nodup →
    (∀ d ∈ ds, ∀ d' ∈ ds, d ≠ d' → ids d ≠ ids d') →
    (∀ m, m ∉ ds → alFind (releaseDepsAux fuel f ds refCtx).sourceContexts m =
      alFind f.sourceContexts m) ∧
    (∀ j, (∀ d ∈ ds, j ≠ ids d) →
      alFind (releaseDepsAux fuel f ds refCtx).entries j = alFind f.entries j) ∧
    (∀ d ∈ ds,
      alFind (releaseDepsAux fuel f ds refCtx).entries (ids d) =
        some { ents d with refCount := (ents d).refCount - 1 } ∧
      (if (ents d).refCount = 1
        then alFind (releaseDepsAux fuel f ds refCtx).sourceContexts d = none
        else alFind (releaseDepsAux fuel f ds refCtx).sourceContexts d =
          some (ids d))) := by
  intro ds
  induction ds with
  | nil =>
    intro f fuel refCtx _ _ _ _
    refine ⟨?_, ?_, ?_⟩
    · intro m _; rw [releaseDepsAux_nil]
    · intro j _; rw [releaseDepsAux_nil]
    · intro d hd; cases hd
  | cons d rest ih =>
    intro f fuel refCtx hfuel hmem hnodup hinj
    obtain ⟨k, rfl⟩ : ∃ k, fuel = k + 1 := ⟨fuel - 1, by omega⟩
    obtain ⟨hfd, hed, hleaf⟩ := hmem d (List.mem_cons_self d rest)
    have hdnotin : d ∉ rest := (List.nodup_cons.mp hnodup).1
    have hrestnodup : rest.Nodup := (List.nodup_cons.mp hnodup).2
    rw [releaseDepsAux_cons]
    set f' := releaseAux (k + 1) f d (some refCtx) with hf'
    have hstep := releaseAux_leaf k f d (some refCtx) (ids d) (ents d)
      hfd hed hleaf
    have hA : ∀ m, m ≠ d → alFind f'.sourceContexts m =
        alFind f.sourceContexts m := by
      intro m hm
      rw [hf', hstep]
      by_cases hrc : (ents d).refCount = 1
      · simp only [if_pos hrc]
        exact alFind_alErase_ne _ _ _ hm
      · simp only [if_neg hrc]
    have hB : ∀ j, j ≠ ids d → alFind f'.entries j = alFind f.entries j := by
      intro j hj
      rw [hf', hstep]
      simp only []
      exact alFind_alSet_ne _ _ _ _ hj
    have hC : alFind f'.entries (ids d) =
        some { ents d with refCount := (ents d).refCount - 1 } := by
      rw [hf', hstep]
      simp only []
      exact alFind_alSet_self _ _ _
    have hD : alFind f'.sourceContexts d = (if (ents d).refCount = 1
        then none else some (ids d)) := by
      rw [hf', hstep]
      by_cases hrc : (ents d).refCount = 1
      · simp only [if_pos hrc]
        exact alFind_alErase_self _ _
      · simp only [if_neg hrc]
        exact hfd
    have hmem' : ∀ d' ∈ rest, alFind f'.sourceContexts d' = some (ids d') ∧
        alFind f'.entries (ids d') = some (ents d') ∧
        (ents d').dependencies = [] := by
      intro d' hd'
      have hne : d' ≠ d := fun hh => hdnotin (hh ▸ hd')
      have hne2 : ids d' ≠ ids d := hinj d' (List.mem_cons_of_mem d hd') d
        (List.mem_cons_self d rest) hne
      obtain ⟨a, b, c⟩ := hmem d' (List.mem_cons_of_mem d hd')
      exact ⟨(hA d' hne).trans a, (hB (ids d') hne2).trans b, c⟩
    have hinj' : ∀ a ∈ rest, ∀ b ∈ rest, a ≠ b → ids a ≠ ids b := by
      intro a ha b hb hab
      exact hinj a (List.mem_cons_of_mem d ha) b (List.mem_cons_of_mem d hb) hab
    have IH := ih f' (k + 1) refCtx (by omega) hmem' hrestnodup hinj'
    refine ⟨?_, ?_, ?_⟩
    · intro m hm
      have hm1 : m ∉ rest := fun hh => hm (List.mem_cons_of_mem d hh)
      have hm2 : m ≠ d := fun hh => hm (hh ▸ List.mem_cons_self d rest)
      exact (IH.1 m hm1).trans (hA m hm2)
    · intro j hj
      have hj1 : ∀ d' ∈ rest, j ≠ ids d' := fun d' hd' =>
        hj d' (List.mem_cons_of_mem d hd')
      have hj2 : j ≠ ids d := hj d (List.mem_cons_self d rest)
      exact (IH.2.1 j hj1).trans (hB j hj2)
    · intro d' hd'
      rcases List.mem_cons.mp hd' with hh | hh
      · subst hh
        constructor
        · have hjd : ∀ a ∈ rest, ids d' ≠ ids a := by
            intro a ha
            exact hinj d' (List.mem_cons_self d' rest) a
              (List.mem_cons_of_mem d' ha) (fun hh => hdnotin (hh ▸ ha))
          exact (IH.2.1 (ids d') hjd).trans hC
        · by_cases hrc : (ents d').refCount = 1
          · simp only [if_pos hrc]
            rw [IH.1 d' hdnotin, hD]
            simp [hrc]
          · simp only [if_neg hrc]
            rw [IH.1 d' hdnotin, hD]
            simp [hrc]
      · exact IH.2.2 d' hh

theorem releaseOldDeps_nil (f : AntlrFacade) : releaseOldDeps f [] = f := rfl

theorem releaseOldDeps_cons (f : AntlrFacade) (d : String)
    (rest : List String) :
    releaseOldDeps f (d :: rest) = releaseOldDeps (releaseGrammar f d) rest :=
  rfl

/-- The old-dependency release loop of `parseGrammar` over leaf entries with
pairwise distinct names and ids: same shape as `releaseDepsAux_leaves`. -/
theorem releaseOldDeps_leaves (ids : String → Nat)
    (ents : String → ContextEntry) :
    ∀ (ds : List String) (f : AntlrFacade),
    (∀ d ∈ ds, alFind f.sourceContexts d = some (ids d) ∧
      alFind f.entries (ids d) = some (ents d) ∧ (ents d).dependencies = []) →
    ds.Nodup →
    (∀ d ∈ ds, ∀ d' ∈ ds, d ≠ d' → ids d ≠ ids d') →
    (∀ m, m ∉ ds → alFind (releaseOldDeps f ds).sourceContexts m =
      alFind f.sourceContexts m) ∧
    (∀ j, (∀ d ∈ ds, j ≠ ids d) →
      alFind (releaseOldDeps f ds).entries j = alFind f.entries j) ∧
    (∀ d ∈ ds,
      alFind (releaseOldDeps f ds).entries (ids d) =
        some { ents d with refCount := (ents d).refCount - 1 } ∧
      (if (ents d).refCount = 1
        then alFind (releaseOldDeps f ds).sourceContexts d = none
        else alFind (releaseOldDeps f ds).sourceContexts d = some (ids d))) := by
  intro ds
  induction ds with
  | nil =>
    intro f _ _ _
    refine ⟨?_, ?_, ?_⟩
    · intro m _; rw [releaseOldDeps_nil]
    · intro j _; rw [releaseOldDeps_nil]
    · intro d hd; cases hd
  | cons d rest ih =>
    intro f hmem hnodup hinj
    obtain ⟨hfd, hed, hleaf⟩ := hmem d (List.mem_cons_self d rest)
    have hdnotin : d ∉ rest := (List.nodup_cons.mp hnodup).1
    have hrestnodup : rest.Nodup := (List.nodup_cons.mp hnodup).2
    rw [releaseOldDeps_cons]
    set f' := releaseGrammar f d with hf'
    have hstep : f' = { refRemoveOpt f none (ents d).context with
        sourceContexts := if (ents d).refCount = 1
          then alErase f.sourceContexts d else f.sourceContexts,
        entries := alSet f.entries (ids d)
          { ents d with refCount := (ents d).refCount - 1 } } := by
      rw [hf']
      unfold releaseGrammar internalReleaseGrammar
      exact releaseAux_leaf f.sourceContexts.length f d none (ids d) (ents d)
        hfd hed hleaf
    have hA : ∀ m, m ≠ d → alFind f'.sourceContexts m =
        alFind f.sourceContexts m := by
      intro m hm
      rw [hstep]
      by_cases hrc : (ents d).refCount = 1
      · simp only [if_pos hrc]
        exact alFind_alErase_ne _ _ _ hm
      · simp only [if_neg hrc]
    have hB : ∀ j, j ≠ ids d → alFind f'.entries j = alFind f.entries j := by
      intro j hj
      rw [hstep]
      simp only []
      exact alFind_alSet_ne _ _ _ _ hj
    have hC : alFind f'.entries (ids d) =
        some { ents d with refCount := (ents d).refCount - 1 } := by
      rw [hstep]
      simp only []
      exact alFind_alSet_self _ _ _
    have hD : alFind f'.sourceContexts d = (if (ents d).refCount = 1
        then none else some (ids d)) := by
      rw [hstep]
      by_cases hrc : (ents d).refCount = 1
      · simp only [if_pos hrc]
        exact alFind_alErase_self _ _
      · simp only [if_neg hrc]
        exact hfd
    have hmem' : ∀ d' ∈ rest, alFind f'.sourceContexts d' = some (ids d') ∧
        alFind f'.entries (ids d') = some (ents d') ∧
        (ents d').dependencies = [] := by
      intro d' hd'
      have hne : d' ≠ d := fun hh => hdnotin (hh ▸ hd')
      have hne2 : ids d' ≠ ids d := hinj d' (List.mem_cons_of_mem d hd') d
        (List.mem_cons_self d rest) hne
      obtain ⟨a, b, c⟩ := hmem d' (List.mem_cons_of_mem d hd')
      exact ⟨(hA d' hne).trans a, (hB (ids d') hne2).trans b, c⟩
    have hinj' : ∀ a ∈ rest, ∀ b ∈ rest, a ≠ b → ids a ≠ ids b := by
      intro a ha b hb hab
      exact hinj a (List.mem_cons_of_mem d ha) b (List.mem_cons_of_mem d hb) hab
    have IH := ih f' hmem' hrestnodup hinj'
    refine ⟨?_, ?_, ?_⟩
    · intro m hm
      have hm1 : m ∉ rest := fun hh => hm (List.mem_cons_of_mem d hh)
      have hm2 : m ≠ d := fun hh => hm (hh ▸ List.mem_cons_self d rest)
      exact (IH.1 m hm1).trans (hA m hm2)
    · intro j hj
      have hj1 : ∀ d' ∈ rest, j ≠ ids d' := fun d' hd' =>
        hj d' (List.mem_cons_of_mem d hd')
      have hj2 : j ≠ ids d := hj d (List.mem_cons_self d rest)
      exact (IH.2.1 j hj1).trans (hB j hj2)
    · intro d' hd'
      rcases List.mem_cons.mp hd' with hh | hh
      · subst hh
        constructor
        · have hjd : ∀ a ∈ rest, ids d' ≠ ids a := by
            intro a ha
            exact hinj d' (List.mem_cons_self d' rest) a
              (List.mem_cons_of_mem d' ha) (fun hh => hdnotin (hh ▸ ha))
          exact (IH.2.1 (ids d') hjd).trans hC
        · by_cases hrc : (ents d').refCount = 1
          · simp only [if_pos hrc]
            rw [IH.1 d' hdnotin, hD]
            simp [hrc]
          · simp only [if_neg hrc]
            rw [IH.1 d' hdnotin, hD]
            simp [hrc]
      · exact IH.2.2 d' hh

/-! ## Step lemmas for the load cluster -/

/-- Fast path of `loadGrammar`: a registered name is never re-read or
re-parsed; the entry's count is incremented and its context returned,
independently of the fuel and of the source argument. -/
theorem loadGrammarAux_hit (env : CompilerModel) (fs : FileSystemModel)
    (fuel : Nat) (f : AntlrFacade) (fileName : String) (source : Option String)
    (id : Nat) (e : ContextEntry)
    (h1 : alFind f.sourceContexts fileName = some id)
    (h2 : alFind f.entries id = some e) :
    loadGrammarAux env fs fuel f fileName source =
      ({ f with
         entries := alSet f.entries id { e with refCount := e.refCount + 1 } },
       e.context) := by
  cases fuel <;> simp [loadGrammarAux, cluster, clusterLevel, h1, h2]

/-- Slow path of `loadGrammar`: a fresh name is registered with count 0,
parsed (at the previous fuel level), and then its count is incremented. -/
theorem loadGrammarAux_fresh (env : CompilerModel) (fs : FileSystemModel)
    (fuel : Nat) (f : AntlrFacade) (fileName : String) (source : Option String)
    (h0 : alFind f.sourceContexts fileName = none) :
    loadGrammarAux env fs (fuel + 1) f fileName source =
      (modifyEntry
        (parseGrammarAux env fs fuel
          (modifyCtx
            { f with
              nextId := f.nextId + 1,
              contexts := alSet f.contexts f.nextId
                { fileName := fileName, text := "", hasErrors := false,
                  interpDataLoaded := false, refs := [] },
              entries := alSet f.entries f.nextId
                { context := f.nextId, refCount := 0, dependencies := [],
                  grammar := fileName },
              sourceContexts := alSet f.sourceContexts fileName f.nextId }
            f.nextId (fun c => { c with text :=
              (if (source.getD "") = ""
               then (if fs.statOk fileName then fs.content fileName else "")
               else source.getD "") }))
          f.nextId)
        f.nextId (fun e2 => { e2 with refCount := e2.refCount + 1 }),
       f.nextId) := by
  simp [loadGrammarAux, cluster, clusterLevel, parseGrammarAux, h0]

/-- `parseGrammar` on a registered entry: clear the dependency list, parse
the current text, resolve the new dependency names, then release the old
dependency paths. -/
theorem parseGrammarAux_eq (env : CompilerModel) (fs : FileSystemModel)
    (fuel : Nat) (f : AntlrFacade) (eid : Nat) (e : ContextEntry)
    (c : SourceContext)
    (h1 : alFind f.entries eid = some e)
    (h2 : alFind f.contexts e.context = some c) :
    parseGrammarAux env fs fuel f eid =
      releaseOldDeps
        (loadDepsLoop env fs fuel
          (modifyCtx
            { f with entries := alSet f.entries eid { e with dependencies := [] } }
            e.context (fun c2 => { c2 with hasErrors := env.parseHasErrors c.text }))
          eid (env.parseDeps c.text))
        e.dependencies := by
  cases fuel <;>
    simp [parseGrammarAux, loadDepsLoop, cluster, clusterLevel, h1, h2]

theorem loadDepsLoop_nil (env : CompilerModel) (fs : FileSystemModel)
    (fuel : Nat) (f : AntlrFacade) (eid : Nat) :
    loadDepsLoop env fs fuel f eid [] = f := by
  cases fuel <;> rfl

theorem loadDepsLoop_cons (env : CompilerModel) (fs : FileSystemModel)
    (fuel : Nat) (f : AntlrFacade) (eid : Nat) (dep : String)
    (rest : List String) :
    loadDepsLoop env fs fuel f eid (dep :: rest) =
      loadDepsLoop env fs fuel
        (match (loadDependencyAux env fs fuel f eid dep).2 with
         | none => (loadDependencyAux env fs fuel f eid dep).1
         | some cid =>
           match alFind (loadDependencyAux env fs fuel f eid dep).1.entries eid with
           | none => (loadDependencyAux env fs fuel f eid dep).1
           | some e =>
             modifyCtx (loadDependencyAux env fs fuel f eid dep).1 e.context
               (fun c => { c with refs := c.refs ++ [cid] }))
        eid rest := by
  cases fuel <;> rfl

/-- `loadDependency` when the entry is not in the arena (unreachable in the
source, where the entry object is always live). -/
theorem loadDependencyAux_noentry (env : CompilerModel) (fs : FileSystemModel)
    (fuel : Nat) (f : AntlrFacade) (eid : Nat) (depName : String)
    (h : alFind f.entries eid = none) :
    loadDependencyAux env fs fuel f eid depName = (f, none) := by
  cases fuel <;> simp [loadDependencyAux, cluster, clusterLevel, h]

/-- `loadDependency`, first candidate `<import-dir>/<name>.g4` readable:
record the path and load it. -/
theorem loadDependencyAux_hit1 (env : CompilerModel) (fs : FileSystemModel)
    (fuel : Nat) (f : AntlrFacade) (eid : Nat) (depName : String)
    (e : ContextEntry) (fullPath p1 : String)
    (h : alFind f.entries eid = some e)
    (hfull : fullPath = (if isAbsolute f.importDir then f.importDir
      else pathJoin (dirname e.grammar) f.importDir))
    (hp1 : p1 = pathJoin fullPath (depName ++ ".g4"))
    (hr1 : fs.readOk p1 = true) :
    loadDependencyAux env fs fuel f eid depName =
      ((loadGrammarAux env fs fuel
          (modifyEntry f eid
            (fun e2 => { e2 with dependencies := e2.dependencies ++ [p1] }))
          p1 none).1,
       some (loadGrammarAux env fs fuel
          (modifyEntry f eid
            (fun e2 => { e2 with dependencies := e2.dependencies ++ [p1] }))
          p1 none).2) := by
  subst hfull
  subst hp1
  cases fuel <;>
    simp [loadDependencyAux, loadGrammarAux, cluster, clusterLevel, h, hr1]

/-- `loadDependency`, second candidate `<import-dir>/<name>.g` readable. -/
theorem loadDependencyAux_hit2 (env : CompilerModel) (fs : FileSystemModel)
    (fuel : Nat) (f : AntlrFacade) (eid : Nat) (depName : String)
    (e : ContextEntry) (fullPath p2 : String)
    (h : alFind f.entries eid = some e)
    (hfull : fullPath = (if isAbsolute f.importDir then f.importDir
      else pathJoin (dirname e.grammar) f.importDir))
    (hr1 : fs.readOk (pathJoin fullPath (depName ++ ".g4")) = false)
    (hp2 : p2 = pathJoin fullPath (depName ++ ".g"))
    (hr2 : fs.readOk p2 = true) :
    loadDependencyAux env fs fuel f eid depName =
      ((loadGrammarAux env fs fuel
          (modifyEntry f eid
            (fun e2 => { e2 with dependencies := e2.dependencies ++ [p2] }))
          p2 none).1,
       some (loadGrammarAux env fs fuel
          (modifyEntry f eid
            (fun e2 => { e2 with dependencies := e2.dependencies ++ [p2] }))
          p2 none).2) := by
  subst hfull
  subst hp2
  cases fuel <;>
    simp [loadDependencyAux, loadGrammarAux, cluster, clusterLevel, h, hr1, hr2]

/-- `loadDependency`, third candidate `<grammar-dir>/<name>.g4` existing. -/
theorem loadDependencyAux_hit3 (env : CompilerModel) (fs : FileSystemModel)
    (fuel : Nat) (f : AntlrFacade) (eid : Nat) (depName : String)
    (e : ContextEntry) (basePath fullPath p3 : String)
    (h : alFind f.entries eid = some e)
    (hbase : basePath = dirname e.grammar)
    (hfull : fullPath = (if isAbsolute f.importDir then f.importDir
      else pathJoin basePath f.importDir))
    (hr1 : fs.readOk (pathJoin fullPath (depName ++ ".g4")) = false)
    (hr2 : fs.readOk (pathJoin fullPath (depName ++ ".g")) = false)
    (hp3 : p3 = pathJoin basePath (depName ++ ".g4"))
    (hs3 : fs.statOk p3 = true) :
    loadDependencyAux env fs fuel f eid depName =
      ((loadGrammarAux env fs fuel
          (modifyEntry f eid
            (fun e2 => { e2 with dependencies := e2.dependencies ++ [p3] }))
          p3 none).1,
       some (loadGrammarAux env fs fuel
          (modifyEntry f eid
            (fun e2 => { e2 with dependencies := e2.dependencies ++ [p3] }))
          p3 none).2) := by
  subst hbase
  subst hfull
  subst hp3
  cases fuel <;>
    simp [loadDependencyAux, loadGrammarAux, cluster, clusterLevel, h,
      hr1, hr2, hs3]

/-- `loadDependency`, fourth candidate `<grammar-dir>/<name>.g` existing. -/
theorem loadDependencyAux_hit4 (env : CompilerModel) (fs : FileSystemModel)
    (fuel : Nat) (f : AntlrFacade) (eid : Nat) (depName : String)
    (e : ContextEntry) (basePath fullPath p4 : String)
    (h : alFind f.entries eid = some e)
    (hbase : basePath = dirname e.grammar)
    (hfull : fullPath = (if isAbsolute f.importDir then f.importDir
      else pathJoin basePath f.importDir))
    (hr1 : fs.readOk (pathJoin fullPath (depName ++ ".g4")) = false)
    (hr2 : fs.readOk (pathJoin fullPath (depName ++ ".g")) = false)
    (hs3 : fs.statOk (pathJoin basePath (depName ++ ".g4")) = false)
    (hp4 : p4 = pathJoin basePath (depName ++ ".g"))
    (hs4 : fs.statOk p4 = true) :
    loadDependencyAux env fs fuel f eid depName =
      ((loadGrammarAux env fs fuel
          (modifyEntry f eid
            (fun e2 => { e2 with dependencies := e2.dependencies ++ [p4] }))
          p4 none).1,
       some (loadGrammarAux env fs fuel
          (modifyEntry f eid
            (fun e2 => { e2 with dependencies := e2.dependencies ++ [p4] }))
          p4 none).2) := by
  subst hbase
  subst hfull
  subst hp4
  cases fuel <;>
    simp [loadDependencyAux, loadGrammarAux, cluster, clusterLevel, h,
      hr1, hr2, hs3, hs4]

/-- `loadDependency` when no candidate matches: the dependency is silently
skipped, nothing is recorded, nothing is loaded. -/
theorem loadDependencyAux_miss (env : CompilerModel) (fs : FileSystemModel)
    (fuel : Nat) (f : AntlrFacade) (eid : Nat) (depName : String)
    (e : ContextEntry) (fullPath basePath : String)
    (h : alFind f.entries eid = some e)
    (hbase : basePath = dirname e.grammar)
    (hfull : fullPath = (if isAbsolute f.importDir then f.importDir
      else pathJoin basePath f.importDir))
    (hr1 : fs.readOk (pathJoin fullPath (depName ++ ".g4")) = false)
    (hr2 : fs.readOk (pathJoin fullPath (depName ++ ".g")) = false)
    (hs3 : fs.statOk (pathJoin basePath (depName ++ ".g4")) = false)
    (hs4 : fs.statOk (pathJoin basePath (depName ++ ".g")) = false) :
    loadDependencyAux env fs fuel f eid depName = (f, none) := by
  subst hbase
  subst hfull
  cases fuel <;>
    simp [loadDependencyAux, cluster, clusterLevel, h, hr1, hr2, hs3, hs4]

/-- A release that does not reach zero: the binding survives and the entry
object's count is decremented. -/
theorem releaseGrammar_stay (f : AntlrFacade) (n : String) (id : Nat)
    (e : ContextEntry)
    (h1 : alFind f.sourceContexts n = some id)
    (h2 : alFind f.entries id = some e)
    (h3 : ¬ e.refCount - 1 = 0) :
    alFind (releaseGrammar f n).sourceContexts n = some id ∧
    alFind (releaseGrammar f n).entries id =
      some { e with refCount := e.refCount - 1 } := by
  have hstep := releaseAux_stay f.sourceContexts.length f n none id e h1 h2 h3
  constructor
  · show alFind (releaseAux (f.sourceContexts.length + 1) f n
      none).sourceContexts n = some id
    rw [hstep]
    simpa using h1
  · show alFind (releaseAux (f.sourceContexts.length + 1) f n
      none).entries id = some { e with refCount := e.refCount - 1 }
    rw [hstep]
    show alFind (alSet f.entries id { e with refCount := e.refCount - 1 }) id =
      some { e with refCount := e.refCount - 1 }
    exact alFind_alSet_self _ _ _

/-- A release that reaches zero removes the binding, and the recursive
dependency releases cannot resurrect it. -/
theorem releaseGrammar_zero_self (f : AntlrFacade) (n : String) (id : Nat)
    (e : ContextEntry)
    (h1 : alFind f.sourceContexts n = some id)
    (h2 : alFind f.entries id = some e)
    (h3 : e.refCount - 1 = 0) :
    alFind (releaseGrammar f n).sourceContexts n = none := by
  have hstep := releaseAux_zeroed f.sourceContexts.length f n none id e h1 h2 h3
  show alFind (releaseAux (f.sourceContexts.length + 1) f n
    none).sourceContexts n = none
  rw [hstep]
  apply (release_preserves_absent _).2
  exact alFind_alErase_self _ _

/-! ## Claim C1 -/

/-- C1: for every file name, `loadGrammar` on an already-loaded name returns
the identical `SourceContext` instance and increments its reference count;
consequently, after a fresh load (ending with the entry registered at count 1
under the returned instance) followed by a second load of the same name,
one `releaseGrammar` call leaves the entry in the context map (count 1) and a
second `releaseGrammar` call removes it. -/
theorem claim_C1 (env : CompilerModel) (fs : FileSystemModel)
    (fuel fuel2 : Nat) (f0 f1 : AntlrFacade) (name : String)
    (src src2 : Option String) (c1 : Nat) (e1 : ContextEntry)
    (h0 : alFind f0.sourceContexts name = none)
    (hload : loadGrammarAux env fs fuel f0 name src = (f1, c1))
    (h1 : alFind f1.sourceContexts name = some c1)
    (h2 : alFind f1.entries c1 = some e1)
    (h3 : e1.refCount = 1)
    (h4 : e1.context = c1) :
    (∀ (g : AntlrFacade) (id : Nat) (e : ContextEntry) (fl : Nat)
      (s : Option String),
      alFind g.sourceContexts name = some id → alFind g.entries id = some e →
      loadGrammarAux env fs fl g name s =
        ({ g with entries := alSet g.entries id { e with refCount := e.refCount + 1 } },
         e.context)) ∧
    (loadGrammarAux env fs fuel2 f1 name src2).2 = c1 ∧
    alFind (loadGrammarAux env fs fuel2 f1 name src2).1.sourceContexts name =
      some c1 ∧
    alFind (loadGrammarAux env fs fuel2 f1 name src2).1.entries c1 =
      some { e1 with refCount := 2 } ∧
    alFind (releaseGrammar (loadGrammarAux env fs fuel2 f1 name src2).1
      name).sourceContexts name = some c1 ∧
    alFind (releaseGrammar (loadGrammarAux env fs fuel2 f1 name src2).1
      name).entries c1 = some { e1 with refCount := 1 } ∧
    alFind (releaseGrammar (releaseGrammar
      (loadGrammarAux env fs fuel2 f1 name src2).1 name) name).sourceContexts
      name = none := by
  have hL := loadGrammarAux_hit env fs fuel2 f1 name src2 c1 e1 h1 h2
  have h21 : e1.refCount + 1 = (2 : Int) := by omega
  have hA : (loadGrammarAux env fs fuel2 f1 name src2).2 = c1 := by
    rw [hL]; exact h4
  have hB : alFind (loadGrammarAux env fs fuel2 f1 name
      src2).1.sourceContexts name = some c1 := by
    rw [hL]; exact h1
  have hC : alFind (loadGrammarAux env fs fuel2 f1 name src2).1.entries c1 =
      some { e1 with refCount := 2 } := by
    rw [hL]
    show alFind (alSet f1.entries c1 { e1 with refCount := e1.refCount + 1 })
      c1 = some { e1 with refCount := 2 }
    rw [alFind_alSet_self, h21]
  have hne : ¬ ({ e1 with refCount := 2 } : ContextEntry).refCount - 1 = 0 := by
    show ¬ (2 : Int) - 1 = 0
    omega
  have hrel1 := releaseGrammar_stay
    (loadGrammarAux env fs fuel2 f1 name src2).1 name c1
    { e1 with refCount := 2 } hB hC hne
  have hD : alFind (releaseGrammar (loadGrammarAux env fs fuel2 f1 name
      src2).1 name).sourceContexts name = some c1 := hrel1.1
  have h11 : ({ e1 with refCount := 2 } : ContextEntry).refCount - 1 =
      (1 : Int) := by
    show (2 : Int) - 1 = 1
    omega
  have hE : alFind (releaseGrammar (loadGrammarAux env fs fuel2 f1 name
      src2).1 name).entries c1 = some { e1 with refCount := 1 } := by
    rw [hrel1.2, h11]
  -- the second release hits count 1 - 1 = 0 and removes the binding
  have hz : ({ e1 with refCount := 1 } : ContextEntry).refCount - 1 = 0 := by
    show (1 : Int) - 1 = 0
    omega
  have hF : alFind (releaseGrammar (releaseGrammar
      (loadGrammarAux env fs fuel2 f1 name src2).1 name) name).sourceContexts
      name = none :=
    releaseGrammar_zero_self _ name c1 { e1 with refCount := 1 } hD hE hz
  exact ⟨fun g id e fl s hg he => loadGrammarAux_hit env fs fl g name s id e
    hg he, hA, hB, hC, hD, hE, hF⟩

/-- C1 witness: the scenario evaluated on a one-grammar world. -/
theorem claim_C1_witness :
    alFind (releaseGrammar (releaseGrammar
      (loadGrammarAux sampleEnv sampleFs 1 c1Facade "A.g4" none).1
      "A.g4") "A.g4").sourceContexts "A.g4" = none := by
  have h := claim_C1 sampleEnv sampleFs 1 1 emptyFacade c1Facade "A.g4"
    none none 1
    { context := 1, refCount := 1, dependencies := [], grammar := "A.g4" }
    (by rfl) (by rfl) (by rfl) (by rfl) (by rfl) (by rfl)
  exact h.2.2.2.2.2.2

/-! ## Claim C8 -/

/-- C8: `releaseGrammar` terminates on every finite context map — the
fuel-indexed recursion is stable at fuel `map size + 1` even when the stored
per-entry dependency path lists form a cycle, because the binding is erased
before the recursive descent; a release request for an absent file name is a
no-op; and an entry removed at count 1 is never processed again — its name
stays unbound even when its own dependency list mentions it. -/
theorem claim_C8 (f : AntlrFacade) (n : String) (r : Option Nat) :
    (∀ fuel, f.sourceContexts.length < fuel →
      releaseAux fuel f n r = internalReleaseGrammar f n r) ∧
    (alFind f.sourceContexts n = none → internalReleaseGrammar f n r = f) ∧
    (∀ id e, alFind f.sourceContexts n = some id →
      alFind f.entries id = some e → e.refCount = 1 →
      alFind (internalReleaseGrammar f n r).sourceContexts n = none) := by
  refine ⟨?_, ?_, ?_⟩
  · intro fuel hfuel
    exact releaseAux_eq_internal fuel f n r hfuel
  · intro h
    unfold internalReleaseGrammar
    exact releaseAux_not_found _ f n r h
  · intro id e h1 h2 h3
    have hz : e.refCount - 1 = 0 := by omega
    have hstep := releaseAux_zeroed f.sourceContexts.length f n r id e h1 h2 hz
    show alFind (releaseAux (f.sourceContexts.length + 1) f n
      r).sourceContexts n = none
    rw [hstep]
    apply (release_preserves_absent _).2
    exact alFind_alErase_self _ _

/-- C8 witness: stability, the no-op on an absent name, and the removal of a
self-cyclic entry, all at concrete inputs. -/
theorem claim_C8_witness :
    releaseAux 5 cyclicFacade "A.g4" none =
      internalReleaseGrammar cyclicFacade "A.g4" none ∧
    internalReleaseGrammar emptyFacade "A.g4" none = emptyFacade ∧
    alFind (internalReleaseGrammar cyclicFacade "A.g4"
      none).sourceContexts "A.g4" = none := by
  refine ⟨?_, ?_, ?_⟩
  · exact (claim_C8 cyclicFacade "A.g4" none).1 5 (by decide)
  · exact (claim_C8 emptyFacade "A.g4" none).2.1 (by rfl)
  · exact (claim_C8 cyclicFacade "A.g4" none).2.2 1
      { context := 1, refCount := 1, dependencies := ["A.g4"],
        grammar := "A.g4" } (by rfl) (by rfl) (by rfl)

/-! ## Claim C9 -/

/-- C9: in every state of the manager, `getSelfDiagnostics` reports
`contextCount` 0, regardless of how many contexts are loaded — it reads the
declared-parameter count of the map's `keys` method instead of the map's
size — so there are states where the reported count differs from the actual
number of loaded contexts. -/
theorem claim_C9 :
    (∀ f : AntlrFacade, (getSelfDiagnostics f).contextCount = 0) ∧
    (∃ f : AntlrFacade,
      (getSelfDiagnostics f).contextCount ≠ f.sourceContexts.length) := by
  constructor
  · intro f
    rfl
  · exact ⟨c1Facade, by decide⟩

/-! ## Fresh load with an unreadable backing file -/

/-- Loading a not-yet-registered name without a source argument when the
backing file cannot be read: the context is built from the empty string and
registered normally — the initial parse runs (here: the empty text yields no
dependencies) and the entry ends registered with reference count 1. -/
theorem loadFresh_empty (env : CompilerModel) (fs : FileSystemModel)
    (fuel : Nat) (f : AntlrFacade) (name : String)
    (h0 : alFind f.sourceContexts name = none)
    (hstat : fs.statOk name = false)
    (hdeps : env.parseDeps "" = []) :
    (loadGrammarAux env fs (fuel + 1) f name none).2 = f.nextId ∧
    alFind (loadGrammarAux env fs (fuel + 1) f name none).1.sourceContexts
      name = some f.nextId ∧
    alFind (loadGrammarAux env fs (fuel + 1) f name none).1.entries
      f.nextId = some { context := f.nextId, refCount := 1,
                        dependencies := [], grammar := name } ∧
    alFind (loadGrammarAux env fs (fuel + 1) f name none).1.contexts
      f.nextId = some { fileName := name, text := "",
                        hasErrors := env.parseHasErrors "",
                        interpDataLoaded := false, refs := [] } := by
  rw [loadGrammarAux_fresh env fs fuel f name none h0]
  simp only [Option.getD, hstat, if_pos rfl, Bool.false_eq_true, if_false]
  simp [modifyCtx, modifyEntry, alFind_alSet_self, hdeps,
    parseGrammarAux_eq, loadDepsLoop_nil, releaseOldDeps_nil]

/-! ## Claim C7 -/

/-- C7: for a not-yet-loaded file name, `loadGrammar` called without a source
argument whose backing file cannot be read constructs the context from the
empty string and registers it normally — the returned instance is the fresh
context, the entry exists with reference count 1 and an empty dependency
list, the initial parse ran (the stored error flag is the parse result of
the empty text) — rather than throwing. -/
theorem claim_C7 (env : CompilerModel) (fs : FileSystemModel) (fuel : Nat)
    (f : AntlrFacade) (name : String)
    (h0 : alFind f.sourceContexts name = none)
    (hstat : fs.statOk name = false)
    (hdeps : env.parseDeps "" = []) :
    (loadGrammarAux env fs (fuel + 1) f name none).2 = f.nextId ∧
    alFind (loadGrammarAux env fs (fuel + 1) f name none).1.sourceContexts
      name = some f.nextId ∧
    alFind (loadGrammarAux env fs (fuel + 1) f name none).1.entries
      f.nextId = some { context := f.nextId, refCount := 1,
                        dependencies := [], grammar := name } ∧
    alFind (loadGrammarAux env fs (fuel + 1) f name none).1.contexts
      f.nextId = some { fileName := name, text := "",
                        hasErrors := env.parseHasErrors "",
                        interpDataLoaded := false, refs := [] } :=
  loadFresh_empty env fs fuel f name h0 hstat hdeps

/-- C7 witness: loading a missing file on the empty facade. -/
theorem claim_C7_witness :
    alFind (loadGrammarAux sampleEnv sampleFs 1 emptyFacade "missing.g4"
      none).1.entries 1 = some { context := 1, refCount := 1,
                                 dependencies := [], grammar := "missing.g4" } :=
  (claim_C7 sampleEnv sampleFs 0 emptyFacade "missing.g4"
    (by rfl) (by rfl) (by rfl)).2.2.1

/-! ## Claim C5 (corrected) -/

/-- C5 as amended: resolving the grammar context for a query via
`getContext` leaves the state — and hence every reference count — unchanged
when the grammar is already loaded; but when the grammar was never loaded,
the query delegates to `loadGrammar`, which registers the grammar with
reference count 1 (the same as an explicit load), contrary to the original
claim that the implicit access does not increment the count. -/
theorem claim_C5 (env : CompilerModel) (fs : FileSystemModel) (fuel : Nat)
    (f : AntlrFacade) (name : String) (src : Option String) :
    (∀ id e, alFind f.sourceContexts name = some id →
      alFind f.entries id = some e →
      getContext env fs fuel f name src = (f, e.context)) ∧
    (alFind f.sourceContexts name = none →
      getContext env fs fuel f name src =
        loadGrammarAux env fs fuel f name src) ∧
    (∀ k, alFind f.sourceContexts name = none → fs.statOk name = false →
      env.parseDeps "" = [] →
      alFind (getContext env fs (k + 1) f name none).1.entries f.nextId =
        some { context := f.nextId, refCount := 1, dependencies := [],
               grammar := name }) := by
  refine ⟨?_, ?_, ?_⟩
  · intro id e h1 h2
    simp [getContext, h1, h2]
  · intro h
    simp [getContext, h]
  · intro k h hstat hdeps
    have hg : getContext env fs (k + 1) f name none =
        loadGrammarAux env fs (k + 1) f name none := by
      simp [getContext, h]
    rw [hg]
    exact (loadFresh_empty env fs k f name h hstat hdeps).2.2.1

/-- C5 counterexample: on a fresh facade, a plain context resolution for a
never-loaded name (as every query operation performs it) does register the
grammar — with reference count 1, not an unchanged count. -/
theorem claim_C5_counterexample :
    alFind emptyFacade.sourceContexts "A.g4" = none ∧
    alFind (getContext sampleEnv sampleFs 1 emptyFacade "A.g4"
      none).1.sourceContexts "A.g4" = some 1 ∧
    alFind (getContext sampleEnv sampleFs 1 emptyFacade "A.g4"
      none).1.entries 1 = some { context := 1, refCount := 1,
                                 dependencies := [], grammar := "A.g4" } := by
  exact ⟨rfl, by rfl, by rfl⟩

/-- C5 witness: both amended behaviors at concrete inputs — resolution on a
loaded facade returns the stored instance with the state untouched, and
resolution on the empty facade registers the grammar at count 1. -/
theorem claim_C5_witness :
    getContext sampleEnv sampleFs 1 c1Facade "A.g4" none = (c1Facade, 1) ∧
    alFind (getContext sampleEnv sampleFs 1 emptyFacade "B.g4"
      none).1.entries 1 = some { context := 1, refCount := 1,
                                 dependencies := [], grammar := "B.g4" } := by
  constructor
  · exact (claim_C5 sampleEnv sampleFs 1 c1Facade "A.g4" none).1 1
      { context := 1, refCount := 1, dependencies := [], grammar := "A.g4" }
      (by rfl) (by rfl)
  · exact (claim_C5 sampleEnv sampleFs 1 emptyFacade "B.g4" none).2.2 0
      (by rfl) (by rfl) (by rfl)

/-! ## Claim C6 -/

/-- C6: for a referenced grammar name, dependency resolution tries exactly
four candidate paths in order — `<import-dir>/<name>.g4`,
`<import-dir>/<name>.g`, `<grammar-dir>/<name>.g4`, `<grammar-dir>/<name>.g`
— accepting the first that exists: the accepted path is appended to the
entry's resolved dependency list and then loaded, its context returned.  If
none exists, the dependency is silently skipped: the state is unchanged, no
dependency is recorded, no error is raised.  Stated over a file system where
readability and existence agree (the source probes the import-directory
candidates with `accessSync R_OK` and the grammar-directory candidates with
`statSync`). -/
theorem claim_C6 (env : CompilerModel) (fs : FileSystemModel) (fuel : Nat)
    (f : AntlrFacade) (eid : Nat) (depName : String) (e : ContextEntry)
    (basePath fullPath p1 p2 p3 p4 : String)
    (h : alFind f.entries eid = some e)
    (hco : ∀ p, fs.readOk p = fs.statOk p)
    (hbase : basePath = dirname e.grammar)
    (hfull : fullPath = (if isAbsolute f.importDir then f.importDir
      else pathJoin basePath f.importDir))
    (hp1 : p1 = pathJoin fullPath (depName ++ ".g4"))
    (hp2 : p2 = pathJoin fullPath (depName ++ ".g"))
    (hp3 : p3 = pathJoin basePath (depName ++ ".g4"))
    (hp4 : p4 = pathJoin basePath (depName ++ ".g")) :
    (fs.statOk p1 = true →
      loadDependencyAux env fs fuel f eid depName =
        ((loadGrammarAux env fs fuel
            (modifyEntry f eid (fun e2 =>
              { e2 with dependencies := e2.dependencies ++ [p1] })) p1 none).1,
         some (loadGrammarAux env fs fuel
            (modifyEntry f eid (fun e2 =>
              { e2 with dependencies := e2.dependencies ++ [p1] })) p1
            none).2)) ∧
    (fs.statOk p1 = false → fs.statOk p2 = true →
      loadDependencyAux env fs fuel f eid depName =
        ((loadGrammarAux env fs fuel
            (modifyEntry f eid (fun e2 =>
              { e2 with dependencies := e2.dependencies ++ [p2] })) p2 none).1,
         some (loadGrammarAux env fs fuel
            (modifyEntry f eid (fun e2 =>
              { e2 with dependencies := e2.dependencies ++ [p2] })) p2
            none).2)) ∧
    (fs.statOk p1 = false → fs.statOk p2 = false → fs.statOk p3 = true →
      loadDependencyAux env fs fuel f eid depName =
        ((loadGrammarAux env fs fuel
            (modifyEntry f eid (fun e2 =>
              { e2 with dependencies := e2.dependencies ++ [p3] })) p3 none).1,
         some (loadGrammarAux env fs fuel
            (modifyEntry f eid (fun e2 =>
              { e2 with dependencies := e2.dependencies ++ [p3] })) p3
            none).2)) ∧
    (fs.statOk p1 = false → fs.statOk p2 = false → fs.statOk p3 = false →
      fs.statOk p4 = true →
      loadDependencyAux env fs fuel f eid depName =
        ((loadGrammarAux env fs fuel
            (modifyEntry f eid (fun e2 =>
              { e2 with dependencies := e2.dependencies ++ [p4] })) p4 none).1,
         some (loadGrammarAux env fs fuel
            (modifyEntry f eid (fun e2 =>
              { e2 with dependencies := e2.dependencies ++ [p4] })) p4
            none).2)) ∧
    (fs.statOk p1 = false → fs.statOk p2 = false → fs.statOk p3 = false →
      fs.statOk p4 = false →
      loadDependencyAux env fs fuel f eid depName = (f, none)) := by
  refine ⟨?_, ?_, ?_, ?_, ?_⟩
  · intro h1
    exact loadDependencyAux_hit1 env fs fuel f eid depName e fullPath p1 h
      (hbase ▸ hfull) hp1 ((hco p1).trans h1)
  · intro h1 h2
    exact loadDependencyAux_hit2 env fs fuel f eid depName e fullPath p2 h
      (hbase ▸ hfull) (hp1 ▸ (hco p1).trans h1) hp2 ((hco p2).trans h2)
  · intro h1 h2 h3
    exact loadDependencyAux_hit3 env fs fuel f eid depName e basePath fullPath
      p3 h hbase hfull (hp1 ▸ (hco p1).trans h1) (hp2 ▸ (hco p2).trans h2)
      hp3 h3
  · intro h1 h2 h3 h4
    exact loadDependencyAux_hit4 env fs fuel f eid depName e basePath fullPath
      p4 h hbase hfull (hp1 ▸ (hco p1).trans h1) (hp2 ▸ (hco p2).trans h2)
      (hp3 ▸ h3) hp4 h4
  · intro h1 h2 h3 h4
    exact loadDependencyAux_miss env fs fuel f eid depName e fullPath basePath
      h hbase hfull (hp1 ▸ (hco p1).trans h1) (hp2 ▸ (hco p2).trans h2)
      (hp3 ▸ h3) (hp4 ▸ h4)

/-- C6 witness: the first candidate is accepted and recorded when it exists;
with no files at all, the dependency is skipped with the state unchanged. -/
theorem claim_C6_witness :
    loadDependencyAux sampleEnv depFs 1 depFacade 1 "B" =
      ((loadGrammarAux sampleEnv depFs 1
          (modifyEntry depFacade 1 (fun e2 =>
            { e2 with dependencies := e2.dependencies ++ ["/i/B.g4"] }))
          "/i/B.g4" none).1,
       some (loadGrammarAux sampleEnv depFs 1
          (modifyEntry depFacade 1 (fun e2 =>
            { e2 with dependencies := e2.dependencies ++ ["/i/B.g4"] }))
          "/i/B.g4" none).2) ∧
    loadDependencyAux sampleEnv sampleFs 1 depFacade 1 "B" =
      (depFacade, none) := by
  constructor
  · exact (claim_C6 sampleEnv depFs 1 depFacade 1 "B"
      { context := 1, refCount := 1, dependencies := [], grammar := "G.g4" }
      "." "/i" "/i/B.g4" "/i/B.g" "./B.g4" "./B.g" (by rfl) (fun p => rfl)
      (by rfl) (by rfl) (by rfl) (by rfl) (by rfl) (by rfl)).1 (by rfl)
  · exact (claim_C6 sampleEnv sampleFs 1 depFacade 1 "B"
      { context := 1, refCount := 1, dependencies := [], grammar := "G.g4" }
      "." "/i" "/i/B.g4" "/i/B.g" "./B.g4" "./B.g" (by rfl) (fun p => rfl)
      (by rfl) (by rfl) (by rfl) (by rfl) (by rfl)
      (by rfl)).2.2.2.2 (by rfl) (by rfl) (by rfl) (by rfl)

/-- One iteration of the dependency-resolution loop when the name resolves
to an already-registered first-candidate path: the path is recorded on the
entry, the resolved entry's count is bumped by the fast load path, and the
dependency context is added as a reference of the entry's context. -/
theorem loadDepsLoop_cons_hit (env : CompilerModel) (fs : FileSystemModel)
    (fuel : Nat) (f : AntlrFacade) (eid : Nat) (n : String)
    (rest : List String) (e : ContextEntry) (fullPath p : String) (pid : Nat)
    (pe : ContextEntry)
    (he : alFind f.entries eid = some e)
    (hfull : fullPath = (if isAbsolute f.importDir then f.importDir
      else pathJoin (dirname e.grammar) f.importDir))
    (hp : p = pathJoin fullPath (n ++ ".g4"))
    (hr : fs.readOk p = true)
    (hnames : alFind f.sourceContexts p = some pid)
    (hent : alFind f.entries pid = some pe)
    (hne : pid ≠ eid) :
    loadDepsLoop env fs fuel f eid (n :: rest) =
      loadDepsLoop env fs fuel
        (modifyCtx
          { f with
            entries :=
              alSet (alSet f.entries eid { e with dependencies := e.dependencies ++ [p] })
                pid { pe with refCount := pe.refCount + 1 } }
          e.context (fun c => { c with refs := c.refs ++ [pe.context] }))
        eid rest := by
  have hdep := loadDependencyAux_hit1 env fs fuel f eid n e fullPath p
    he hfull hp hr
  have hfp : modifyEntry f eid (fun e2 =>
      { e2 with dependencies := e2.dependencies ++ [p] }) =
      { f with
        entries :=
          alSet f.entries eid { e with dependencies := e.dependencies ++ [p] } } := by
    simp [modifyEntry, he]
  rw [loadDepsLoop_cons, hdep, hfp]
  have hload := loadGrammarAux_hit env fs fuel
    { f with
      entries :=
        alSet f.entries eid { e with dependencies := e.dependencies ++ [p] } }
    p none pid pe
    hnames
    (by
      show alFind
        (alSet f.entries eid { e with dependencies := e.dependencies ++ [p] })
        pid = some pe
      rw [alFind_alSet_ne _ _ _ _ hne]
      exact hent)
  rw [hload]
  have hfind : alFind ({ f with
      entries :=
        alSet (alSet f.entries eid { e with dependencies := e.dependencies ++ [p] })
          pid { pe with refCount := pe.refCount + 1 } } : AntlrFacade).entries
      eid = some { e with dependencies := e.dependencies ++ [p] } := by
    show alFind
      (alSet (alSet f.entries eid { e with dependencies := e.dependencies ++ [p] })
        pid { pe with refCount := pe.refCount + 1 })
      eid = some { e with dependencies := e.dependencies ++ [p] }
    rw [alFind_alSet_ne _ _ _ _ (Ne.symm hne)]
    exact alFind_alSet_self _ _ _
  simp only [hfind]

/-- The dependency-resolution loop when every parsed name resolves to its
first candidate path and every resolved path is already registered: each
iteration records the path on the entry and takes the fast load path, which
bumps the resolved entry's count; the context map itself is unchanged.
`ids`/`ents` describe the registered entries, keyed by resolved path. -/
theorem loadDepsLoop_hits (env : CompilerModel) (fs : FileSystemModel)
    (fuel : Nat) (resolved : String → String) (ids : String → Nat)
    (ents : String → ContextEntry) :
    ∀ (N : List String) (f : AntlrFacade) (eid : Nat) (e : ContextEntry)
      (fullPath : String),
    alFind f.entries eid = some e →
    fullPath = (if isAbsolute f.importDir then f.importDir
      else pathJoin (dirname e.grammar) f.importDir) →
    (∀ n ∈ N, resolved n = pathJoin fullPath (n ++ ".g4")) →
    (∀ n ∈ N, fs.readOk (resolved n) = true) →
    (∀ n ∈ N, alFind f.sourceContexts (resolved n) = some (ids (resolved n))) →
    (∀ n ∈ N, alFind f.entries (ids (resolved n)) = some (ents (resolved n))) →
    (∀ n ∈ N, ids (resolved n) ≠ eid) →
    (∀ n ∈ N, ∀ n' ∈ N, n ≠ n' → ids (resolved n) ≠ ids (resolved n')) →
    N.Nodup →
    (loadDepsLoop env fs fuel f eid N).sourceContexts = f.sourceContexts ∧
    (loadDepsLoop env fs fuel f eid N).importDir = f.importDir ∧
    alFind (loadDepsLoop env fs fuel f eid N).entries eid =
      some { e with dependencies := e.dependencies ++ N.map resolved } ∧
    (∀ n ∈ N, alFind (loadDepsLoop env fs fuel f eid N).entries
      (ids (resolved n)) =
      some { ents (resolved n) with
             refCount := (ents (resolved n)).refCount + 1 }) ∧
    (∀ j, j ≠ eid → (∀ n ∈ N, j ≠ ids (resolved n)) →
      alFind (loadDepsLoop env fs fuel f eid N).entries j =
        alFind f.entries j) := by
  intro N
  induction N with
  | nil =>
    intro f eid e fullPath he _ _ _ _ _ _ _ _
    rw [loadDepsLoop_nil]
    refine ⟨rfl, rfl, ?_, ?_, ?_⟩
    · simpa using he
    · intro n hn; cases hn
    · intro j _ _; rfl
  | cons n rest ih =>
    intro f eid e fullPath he hfull hres hread hnames hent hne hinj hnodup
    have hnmem : n ∈ n :: rest := List.mem_cons_self n rest
    have hnnotin : n ∉ rest := (List.nodup_cons.mp hnodup).1
    have hrestnodup : rest.Nodup := (List.nodup_cons.mp hnodup).2
    rw [loadDepsLoop_cons_hit env fs fuel f eid n rest e fullPath
      (resolved n) (ids (resolved n)) (ents (resolved n)) he hfull
      (hres n hnmem) (hread n hnmem) (hnames n hnmem) (hent n hnmem)
      (hne n hnmem)]
    -- the state after one iteration
    set f1 := modifyCtx
      { f with
        entries :=
          alSet (alSet f.entries eid { e with dependencies := e.dependencies ++ [resolved n] })
            (ids (resolved n))
            { ents (resolved n) with refCount := (ents (resolved n)).refCount + 1 } }
      e.context (fun c => { c with refs := c.refs ++ [(ents (resolved n)).context] })
      with hf1def
    have hf1names : f1.sourceContexts = f.sourceContexts := by
      rw [hf1def]; simp
    have hf1imp : f1.importDir = f.importDir := by
      rw [hf1def]; simp
    have hf1entries : f1.entries =
        alSet (alSet f.entries eid { e with dependencies := e.dependencies ++ [resolved n] })
          (ids (resolved n))
          { ents (resolved n) with refCount := (ents (resolved n)).refCount + 1 } := by
      rw [hf1def]; simp
    have hf1eid : alFind f1.entries eid =
        some { e with dependencies := e.dependencies ++ [resolved n] } := by
      rw [hf1entries, alFind_alSet_ne _ _ _ _ (Ne.symm (hne n hnmem))]
      exact alFind_alSet_self _ _ _
    have hf1frame : ∀ j, j ≠ eid → j ≠ ids (resolved n) →
        alFind f1.entries j = alFind f.entries j := by
      intro j hj1 hj2
      rw [hf1entries, alFind_alSet_ne _ _ _ _ hj2,
        alFind_alSet_ne _ _ _ _ hj1]
    have hf1bump : alFind f1.entries (ids (resolved n)) =
        some { ents (resolved n) with
               refCount := (ents (resolved n)).refCount + 1 } := by
      rw [hf1entries]
      exact alFind_alSet_self _ _ _
    have IH := ih f1 eid
      { e with dependencies := e.dependencies ++ [resolved n] } fullPath
      hf1eid
      (by rw [hf1imp]; exact hfull)
      (fun n' hn' => hres n' (List.mem_cons_of_mem n hn'))
      (fun n' hn' => hread n' (List.mem_cons_of_mem n hn'))
      (fun n' hn' => by
        rw [hf1names]; exact hnames n' (List.mem_cons_of_mem n hn'))
      (fun n' hn' => by
        rw [hf1frame (ids (resolved n')) (hne n' (List.mem_cons_of_mem n hn'))
          (hinj n' (List.mem_cons_of_mem n hn') n hnmem
            (fun hh => hnnotin (hh ▸ hn')))]
        exact hent n' (List.mem_cons_of_mem n hn'))
      (fun n' hn' => hne n' (List.mem_cons_of_mem n hn'))
      (fun a ha b hb hab => hinj a (List.mem_cons_of_mem n ha) b
        (List.mem_cons_of_mem n hb) hab)
      hrestnodup
    refine ⟨?_, ?_, ?_, ?_, ?_⟩
    · rw [IH.1, hf1names]
    · rw [IH.2.1, hf1imp]
    · rw [IH.2.2.1]
      simp
    · intro n' hn'
      rcases List.mem_cons.mp hn' with hh | hh
      · subst hh
        rw [IH.2.2.2.2 (ids (resolved n')) (hne n' hnmem)
          (fun a ha => hinj n' hnmem a (List.mem_cons_of_mem n' ha)
            (fun hh => hnnotin (hh ▸ ha)))]
        exact hf1bump
      · exact IH.2.2.2.1 n' hh
    · intro j hj1 hj2
      rw [IH.2.2.2.2 j hj1
        (fun a ha => hj2 a (List.mem_cons_of_mem n ha))]
      exact hf1frame j hj1 (hj2 n hnmem)

/-- Distinct elements of a list with a duplicate-free image have distinct
images. -/
theorem nodup_map_ne {α β : Type} (g : α → β) :
    ∀ (l : List α), (l.map g).Nodup →
    ∀ a ∈ l, ∀ b ∈ l, a ≠ b → g a ≠ g b := by
  intro l
  induction l with
  | nil =>
    intro _ a ha
    cases ha
  | cons x rest ih =>
    intro hnd a ha b hb hab
    have hx : g x ∉ rest.map g := (List.nodup_cons.mp hnd).1
    have hrest : (rest.map g).Nodup := (List.nodup_cons.mp hnd).2
    rcases List.mem_cons.mp ha with h1 | h1
    · rcases List.mem_cons.mp hb with h2 | h2
      · exact absurd (h1.trans h2.symm) hab
      · subst h1
        intro hgg
        exact hx (hgg ▸ List.mem_map_of_mem g h2)
    · rcases List.mem_cons.mp hb with h2 | h2
      · subst h2
        intro hgg
        exact hx (hgg ▸ List.mem_map_of_mem g h1)
      · exact ih hrest a h1 b h2 hab

/-! ## Claim C2 -/

/-- C2: `releaseGrammar` decrements the named entry's count; when the count
reaches zero, it removes the entry from the context map and recursively
releases each of the entry's resolved dependencies.  Consequently, for a
grammar `G` held with count 1 whose resolved dependencies are leaf entries:
releasing `G` removes it, removes every dependency whose only remaining
reference came through `G` (count 1), and leaves every dependency still
referenced elsewhere (count above 1) in the map with a positive count. -/
theorem claim_C2 (f : AntlrFacade) (G : String) (gid : Nat)
    (ge : ContextEntry) (ids : String → Nat) (ents : String → ContextEntry)
    (hG : alFind f.sourceContexts G = some gid)
    (hge : alFind f.entries gid = some ge)
    (hrc : ge.refCount = 1)
    (hdeps : ∀ d ∈ ge.dependencies,
      d ≠ G ∧ ids d ≠ gid ∧
      alFind f.sourceContexts d = some (ids d) ∧
      alFind f.entries (ids d) = some (ents d) ∧
      (ents d).dependencies = [] ∧ 1 ≤ (ents d).refCount)
    (hnodup : ge.dependencies.Nodup)
    (hinj : ∀ d ∈ ge.dependencies, ∀ d' ∈ ge.dependencies, d ≠ d' →
      ids d ≠ ids d') :
    (∀ (g : AntlrFacade) (n : String) (id : Nat) (e : ContextEntry),
      alFind g.sourceContexts n = some id → alFind g.entries id = some e →
      (¬ e.refCount - 1 = 0 →
        alFind (releaseGrammar g n).sourceContexts n = some id ∧
        alFind (releaseGrammar g n).entries id =
          some { e with refCount := e.refCount - 1 }) ∧
      (e.refCount - 1 = 0 →
        releaseGrammar g n =
          releaseDepsAux g.sourceContexts.length
            { g with sourceContexts := alErase g.sourceContexts n,
                     entries := alSet g.entries id
                       { e with refCount := e.refCount - 1 } }
            e.dependencies e.context)) ∧
    alFind (releaseGrammar f G).sourceContexts G = none ∧
    (∀ d ∈ ge.dependencies,
      ((ents d).refCount = 1 →
        alFind (releaseGrammar f G).sourceContexts d = none) ∧
      (1 < (ents d).refCount →
        alFind (releaseGrammar f G).sourceContexts d = some (ids d) ∧
        alFind (releaseGrammar f G).entries (ids d) =
          some { ents d with refCount := (ents d).refCount - 1 } ∧
        (0 : Int) < (ents d).refCount - 1)) := by
  have hzero : ge.refCount - 1 = 0 := by omega
  have hstep := releaseAux_zeroed f.sourceContexts.length f G none gid ge
    hG hge hzero
  have hlen : 0 < f.sourceContexts.length :=
    length_pos_of_alFind f.sourceContexts G gid hG
  -- the state just after erasing G, before releasing the dependencies
  have hmem3 : ∀ d ∈ ge.dependencies,
      alFind ({ refRemoveOpt f none ge.context with
        sourceContexts := alErase f.sourceContexts G,
        entries := alSet f.entries gid { ge with refCount := ge.refCount - 1 } }
        : AntlrFacade).sourceContexts d = some (ids d) ∧
      alFind ({ refRemoveOpt f none ge.context with
        sourceContexts := alErase f.sourceContexts G,
        entries := alSet f.entries gid { ge with refCount := ge.refCount - 1 } }
        : AntlrFacade).entries (ids d) = some (ents d) ∧
      (ents d).dependencies = [] := by
    intro d hd
    obtain ⟨hne, hni, hfind, hent, hleaf, _⟩ := hdeps d hd
    refine ⟨?_, ?_, hleaf⟩
    · show alFind (alErase f.sourceContexts G) d = some (ids d)
      rw [alFind_alErase_ne _ _ _ hne]
      exact hfind
    · show alFind (alSet f.entries gid { ge with refCount := ge.refCount - 1 })
        (ids d) = some (ents d)
      rw [alFind_alSet_ne _ _ _ _ hni]
      exact hent
  have hfold := releaseDepsAux_leaves ids ents ge.dependencies
    { refRemoveOpt f none ge.context with
      sourceContexts := alErase f.sourceContexts G,
      entries := alSet f.entries gid { ge with refCount := ge.refCount - 1 } }
    f.sourceContexts.length ge.context hlen hmem3 hnodup hinj
  have hrel : releaseGrammar f G = releaseDepsAux f.sourceContexts.length
      { refRemoveOpt f none ge.context with
        sourceContexts := alErase f.sourceContexts G,
        entries := alSet f.entries gid { ge with refCount := ge.refCount - 1 } }
      ge.dependencies ge.context := hstep
  refine ⟨?_, ?_, ?_⟩
  · intro g n id e h1 h2
    constructor
    · intro hne
      exact releaseGrammar_stay g n id e h1 h2 hne
    · intro hz
      exact releaseAux_zeroed g.sourceContexts.length g n none id e h1 h2 hz
  · rw [hrel]
    have hGnot : G ∉ ge.dependencies := fun hh => (hdeps G hh).1 rfl
    rw [hfold.1 G hGnot]
    exact alFind_alErase_self _ _
  · intro d hd
    have hres := hfold.2.2 d hd
    constructor
    · intro h1
      rw [hrel]
      have := hres.2
      rw [if_pos h1] at this
      exact this
    · intro hgt
      have hne1 : ¬ (ents d).refCount = 1 := by omega
      refine ⟨?_, ?_, by omega⟩
      · rw [hrel]
        have := hres.2
        rw [if_neg hne1] at this
        exact this
      · rw [hrel]
        exact hres.1

/-- C2 witness: releasing `G.g4` removes it and its solely-owned dependency
`/i/A.g4`, while the shared `/i/B.g4` stays with count 1. -/
theorem claim_C2_witness :
    alFind (releaseGrammar c2Facade "G.g4").sourceContexts "G.g4" = none ∧
    alFind (releaseGrammar c2Facade "G.g4").sourceContexts "/i/A.g4" = none ∧
    alFind (releaseGrammar c2Facade "G.g4").sourceContexts "/i/B.g4" =
      some 3 ∧
    alFind (releaseGrammar c2Facade "G.g4").entries 3 =
      some { context := 3, refCount := 1, dependencies := [],
             grammar := "/i/B.g4" } := by
  have h := claim_C2 c2Facade "G.g4" 1
    { context := 1, refCount := 1, dependencies := ["/i/A.g4", "/i/B.g4"],
      grammar := "G.g4" }
    (fun d => if d = "/i/A.g4" then 2 else 3)
    (fun d => if d = "/i/A.g4" then
      { context := 2, refCount := 1, dependencies := [], grammar := "/i/A.g4" }
      else
      { context := 3, refCount := 2, dependencies := [], grammar := "/i/B.g4" })
    (by rfl) (by rfl) (by rfl) (by decide) (by decide) (by decide)
  have hA := (h.2.2 "/i/A.g4" (by decide)).1 (by decide)
  have hB := (h.2.2 "/i/B.g4" (by decide)).2 (by decide)
  refine ⟨h.2.1, hA, ?_, ?_⟩
  · have := hB.1
    simpa using this
  · have := hB.2.1
    simpa using this

/-! ## Claim C3 (corrected) -/

/-- C3 as amended: reparsing a loaded grammar first resolves the new
dependency set and then releases each dependency path of the previous parse
exactly once.  When the previously resolved dependencies are leaf entries
(so no cascaded releases occur) and the new names resolve to already-loaded
paths: the stored dependency list afterwards reflects only the new parse, a
dependency present in both the old and the new set ends with its reference
count unchanged, a dependency present only in the old set has its count
decremented by one (its entry unloaded when that reaches zero), and a
dependency present only in the new set has its count incremented by one.
(Without the leaf restriction the original claim fails: a released old
dependency that itself resolved a shared path decrements that path a second
time — see the counterexample.) -/
theorem claim_C3 (env : CompilerModel) (fs : FileSystemModel) (fuel : Nat)
    (f : AntlrFacade) (G : String) (gid : Nat) (ge : ContextEntry)
    (gc : SourceContext) (N O P : List String)
    (resolved : String → String) (ids : String → Nat)
    (ents : String → ContextEntry) (fullPath : String)
    (hG : alFind f.sourceContexts G = some gid)
    (hge : alFind f.entries gid = some ge)
    (hgc : alFind f.contexts ge.context = some gc)
    (hO : O = ge.dependencies)
    (hN : env.parseDeps gc.text = N)
    (hfull : fullPath = (if isAbsolute f.importDir then f.importDir
      else pathJoin (dirname ge.grammar) f.importDir))
    (hres : ∀ n ∈ N, resolved n = pathJoin fullPath (n ++ ".g4"))
    (hread : ∀ n ∈ N, fs.readOk (resolved n) = true)
    (hP : P = N.map resolved)
    (hbind : ∀ p ∈ O ++ P, alFind f.sourceContexts p = some (ids p) ∧
      alFind f.entries (ids p) = some (ents p))
    (hnotG : ∀ p ∈ O ++ P, p ≠ G ∧ ids p ≠ gid)
    (hinj : ∀ p ∈ O ++ P, ∀ q ∈ O ++ P, p ≠ q → ids p ≠ ids q)
    (hOleaf : ∀ d ∈ O, (ents d).dependencies = [])
    (hOrc : ∀ d ∈ O, 1 ≤ (ents d).refCount)
    (hOnodup : O.Nodup) (hNnodup : N.Nodup) (hPnodup : P.Nodup) :
    alFind (reparse env fs fuel f G).entries gid =
      some { ge with dependencies := P } ∧
    (∀ d ∈ O, d ∈ P →
      alFind (reparse env fs fuel f G).sourceContexts d = some (ids d) ∧
      alFind (reparse env fs fuel f G).entries (ids d) = some (ents d)) ∧
    (∀ d ∈ O, d ∉ P →
      ((ents d).refCount = 1 →
        alFind (reparse env fs fuel f G).sourceContexts d = none) ∧
      (1 < (ents d).refCount →
        alFind (reparse env fs fuel f G).sourceContexts d = some (ids d) ∧
        alFind (reparse env fs fuel f G).entries (ids d) =
          some { ents d with refCount := (ents d).refCount - 1 })) ∧
    (∀ p ∈ P, p ∉ O →
      alFind (reparse env fs fuel f G).sourceContexts p = some (ids p) ∧
      alFind (reparse env fs fuel f G).entries (ids p) =
        some { ents p with refCount := (ents p).refCount + 1 }) := by
  subst hO
  subst hP
  -- the reparse unfolds into: resolve the new names, then release the old
  have hrep : reparse env fs fuel f G =
      releaseOldDeps
        (loadDepsLoop env fs fuel
          (modifyCtx
            { f with
              entries :=
                alSet f.entries gid { ge with dependencies := [] } }
            ge.context
            (fun c2 => { c2 with hasErrors := env.parseHasErrors gc.text }))
          gid (env.parseDeps gc.text))
        ge.dependencies := by
    show (match alFind f.sourceContexts G with
      | none => f
      | some id => parseGrammarAux env fs fuel f id) =
      _
    rw [hG]
    exact parseGrammarAux_eq env fs fuel f gid ge gc hge hgc
  rw [hN] at hrep
  set f2 := modifyCtx
    { f with
      entries :=
        alSet f.entries gid { ge with dependencies := [] } }
    ge.context
    (fun c2 => { c2 with hasErrors := env.parseHasErrors gc.text })
    with hf2def
  have hf2names : f2.sourceContexts = f.sourceContexts := by
    rw [hf2def]; simp
  have hf2entries : f2.entries =
      alSet f.entries gid { ge with dependencies := [] } := by
    rw [hf2def]; simp
  have hf2imp : f2.importDir = f.importDir := by
    rw [hf2def]; simp
  -- every resolved path of the new parse is a member of the path set
  have hmemP : ∀ n ∈ N, resolved n ∈ ge.dependencies ++ N.map resolved :=
    fun n hn => List.mem_append_right _ (List.mem_map_of_mem resolved hn)
  -- the resolution loop: record the new paths, bump their entries
  have hfold := loadDepsLoop_hits env fs fuel resolved ids ents N f2 gid
    { ge with dependencies := [] } fullPath
    (by rw [hf2entries]; exact alFind_alSet_self _ _ _)
    (by rw [hf2imp]; exact hfull)
    hres hread
    (fun n hn => by rw [hf2names]; exact (hbind _ (hmemP n hn)).1)
    (fun n hn => by
      rw [hf2entries,
        alFind_alSet_ne _ _ _ _ (hnotG _ (hmemP n hn)).2]
      exact (hbind _ (hmemP n hn)).2)
    (fun n hn => (hnotG _ (hmemP n hn)).2)
    (fun n hn n' hn' hne =>
      hinj _ (hmemP n hn) _ (hmemP n' hn')
        (nodup_map_ne resolved N hPnodup n hn n' hn' hne))
    hNnodup
  set f3 := loadDepsLoop env fs fuel f2 gid N with hf3def
  -- entries of the post-resolution state, described by the bumped table
  have hf3ent : ∀ d ∈ ge.dependencies,
      alFind f3.entries (ids d) =
        some (if d ∈ N.map resolved
          then { ents d with refCount := (ents d).refCount + 1 }
          else ents d) := by
    intro d hd
    have hdO : d ∈ ge.dependencies ++ N.map resolved :=
      List.mem_append_left _ hd
    by_cases hdP : d ∈ N.map resolved
    · obtain ⟨n, hn, hrd⟩ := List.mem_map.mp hdP
      rw [if_pos hdP, ← hrd]
      exact hfold.2.2.2.1 n hn
    · rw [if_neg hdP]
      rw [hfold.2.2.2.2 (ids d) (hnotG _ hdO).2
        (fun n hn => hinj _ hdO _ (hmemP n hn)
          (fun hh => hdP (hh ▸ List.mem_map_of_mem resolved hn)))]
      rw [hf2entries, alFind_alSet_ne _ _ _ _ (hnotG _ hdO).2]
      exact (hbind _ hdO).2
  -- the release pass over the old dependency list (all leaves)
  have hrel := releaseOldDeps_leaves ids
    (fun d => if d ∈ N.map resolved
      then { ents d with refCount := (ents d).refCount + 1 }
      else ents d)
    ge.dependencies f3
    (fun d hd => by
      have hdO : d ∈ ge.dependencies ++ N.map resolved :=
        List.mem_append_left _ hd
      refine ⟨?_, hf3ent d hd, ?_⟩
      · rw [hfold.1, hf2names]
        exact (hbind _ hdO).1
      · by_cases hdP : d ∈ N.map resolved
        · simp only [if_pos hdP]
          exact hOleaf d hd
        · simp only [if_neg hdP]
          exact hOleaf d hd)
    hOnodup
    (fun a ha b hb hab => hinj a (List.mem_append_left _ ha) b
      (List.mem_append_left _ hb) hab)
  refine ⟨?_, ?_, ?_, ?_⟩
  · -- the stored dependency list is the new resolved set
    rw [hrep]
    rw [hrel.2.1 gid (fun d hd =>
      Ne.symm ((hnotG _ (List.mem_append_left _ hd)).2))]
    rw [hfold.2.2.1]
    rfl
  · -- old ∩ new: count unchanged
    intro d hd hdP
    have hdO : d ∈ ge.dependencies ++ N.map resolved :=
      List.mem_append_left _ hd
    have hres3 := hrel.2.2 d hd
    have hc : ¬ (if d ∈ N.map resolved
        then { ents d with refCount := (ents d).refCount + 1 }
        else ents d).refCount = 1 := by
      rw [if_pos hdP]
      have := hOrc d hd
      show ¬ (ents d).refCount + 1 = 1
      omega
    constructor
    · rw [hrep]
      have := hres3.2
      simp only [if_neg hc] at this
      exact this
    · rw [hrep]
      have := hres3.1
      simp only [if_pos hdP] at this
      have harith : (ents d).refCount + 1 - 1 = (ents d).refCount := by omega
      rw [harith] at this
      exact this
  · -- old only: decremented once, unloaded at zero
    intro d hd hdP
    have hres3 := hrel.2.2 d hd
    constructor
    · intro h1
      have hc : (if d ∈ N.map resolved
          then { ents d with refCount := (ents d).refCount + 1 }
          else ents d).refCount = 1 := by
        rw [if_neg hdP]
        exact h1
      rw [hrep]
      have := hres3.2
      simp only [if_pos hc] at this
      exact this
    · intro h1
      have hc : ¬ (if d ∈ N.map resolved
          then { ents d with refCount := (ents d).refCount + 1 }
          else ents d).refCount = 1 := by
        rw [if_neg hdP]
        omega
      constructor
      · rw [hrep]
        have := hres3.2
        simp only [if_neg hc] at this
        exact this
      · rw [hrep]
        have := hres3.1
        simp only [if_neg hdP] at this
        exact this
  · -- new only: incremented once
    intro p hp hpO
    have hpP : p ∈ ge.dependencies ++ N.map resolved :=
      List.mem_append_right _ hp
    obtain ⟨n, hn, hrn⟩ := List.mem_map.mp hp
    constructor
    · rw [hrep]
      rw [hrel.1 p hpO, hfold.1, hf2names]
      exact (hbind _ hpP).1
    · rw [hrep]
      rw [hrel.2.1 (ids p) (fun d hd => hinj p hpP d
        (List.mem_append_left _ hd)
        (fun hh => hpO (hh ▸ hd)))]
      rw [← hrn]
      exact hfold.2.2.2.1 n hn

/-- C3 counterexample: `/i/B.g4` is in the old resolved set and is the whole
new resolved set, yet the reparse ends with its reference count decremented
from 2 to 1 — the cascaded release of the dropped dependency `/i/A.g4`
(which also resolved `/i/B.g4`) decrements it a second time, refuting "a
dependency present in both old and new sets ends with its reference count
unchanged". -/
theorem claim_C3_counterexample :
    (alFind c3Facade.entries 1).map ContextEntry.dependencies =
      some ["/i/A.g4", "/i/B.g4"] ∧
    (alFind c3Facade.entries 3).map ContextEntry.refCount = some 2 ∧
    (alFind (reparse c3Env c3Fs 1 c3Facade "G.g4").entries 1).map
      ContextEntry.dependencies = some ["/i/B.g4"] ∧
    (alFind (reparse c3Env c3Fs 1 c3Facade "G.g4").entries 3).map
      ContextEntry.refCount = some 1 := by
  exact ⟨by rfl, by rfl, by rfl, by rfl⟩

/-- C3 witness: with leaf old dependencies, the reparse swaps the stored
list to the new set, unloads the old-only dependency `/i/A.g4` and leaves
the shared `/i/B.g4` with its count 2 unchanged. -/
theorem claim_C3_witness :
    alFind (reparse c3Env c3Fs 1 c3wFacade "G.g4").sourceContexts
      "/i/A.g4" = none ∧
    alFind (reparse c3Env c3Fs 1 c3wFacade "G.g4").entries 3 =
      some { context := 3, refCount := 2, dependencies := [],
             grammar := "/i/B.g4" } ∧
    alFind (reparse c3Env c3Fs 1 c3wFacade "G.g4").entries 1 =
      some { context := 1, refCount := 1, dependencies := ["/i/B.g4"],
             grammar := "G.g4" } := by
  have h := claim_C3 c3Env c3Fs 1 c3wFacade "G.g4" 1
    { context := 1, refCount := 1, dependencies := ["/i/A.g4", "/i/B.g4"],
      grammar := "G.g4" }
    { fileName := "G.g4", text := "gT", hasErrors := false,
      interpDataLoaded := false, refs := [2, 3] }
    ["B"] ["/i/A.g4", "/i/B.g4"] ["/i/B.g4"]
    (fun n => pathJoin "/i" (n ++ ".g4"))
    (fun p => if p = "/i/A.g4" then 2 else 3)
    (fun p => if p = "/i/A.g4" then
      { context := 2, refCount := 1, dependencies := [],
        grammar := "/i/A.g4" }
      else
      { context := 3, refCount := 2, dependencies := [],
        grammar := "/i/B.g4" })
    "/i"
    (by rfl) (by rfl) (by rfl) (by rfl) (by rfl) (by rfl)
    (by decide) (by decide) (by rfl) (by decide) (by decide) (by decide)
    (by decide) (by decide) (by decide) (by decide) (by decide)
  have hA := (h.2.2.1 "/i/A.g4" (by decide) (by decide)).1 (by decide)
  have hB := h.2.1 "/i/B.g4" (by decide) (by decide)
  refine ⟨hA, ?_, ?_⟩
  · have := hB.2
    simpa using this
  · have := h.1
    simpa using this

/-! ## Claim C10 -/

theorem modifyCtx_find_self (f : AntlrFacade) (id : Nat)
    (g : SourceContext → SourceContext) (c : SourceContext)
    (h : alFind f.contexts id = some c) :
    alFind (modifyCtx f id g).contexts id = some (g c) := by
  unfold modifyCtx
  rw [h]
  exact alFind_alSet_self _ _ _

theorem modifyCtx_find_other (f : AntlrFacade) (id : Nat)
    (g : SourceContext → SourceContext) (j : Nat) (h : j ≠ id) :
    alFind (modifyCtx f id g).contexts j = alFind f.contexts j := by
  unfold modifyCtx
  cases hfind : alFind f.contexts id with
  | none => rfl
  | some c =>
    show alFind (alSet f.contexts id (g c)) j = alFind f.contexts j
    exact alFind_alSet_ne _ _ _ _ h

/-- The per-dependency check loop returns `false` (no abort) when every
listed context is present and error-free. -/
theorem depsErrorCheckLoop_ok :
    ∀ (deps : List Nat) (f : AntlrFacade),
    (∀ cid ∈ deps, ∃ c, alFind f.contexts cid = some c ∧
      c.hasErrors = false) →
    (depsErrorCheckLoop f deps).2 = false := by
  intro deps
  induction deps with
  | nil =>
    intro f _
    rfl
  | cons cid rest ih =>
    intro f hpres
    obtain ⟨c, hc, herr⟩ := hpres cid (List.mem_cons_self cid rest)
    have hrest : ∀ cid' ∈ rest, ∃ c', alFind
        (if c.interpDataLoaded then f
         else modifyCtx f cid (fun c2 => { c2 with interpDataLoaded := true })
        ).contexts cid' = some c' ∧ c'.hasErrors = false := by
      intro cid' hcid'
      obtain ⟨c', hc', herr'⟩ := hpres cid' (List.mem_cons_of_mem cid hcid')
      by_cases hil : c.interpDataLoaded
      · exact ⟨c', by rw [if_pos hil]; exact hc', herr'⟩
      · by_cases heq : cid' = cid
        · subst heq
          refine ⟨{ c' with interpDataLoaded := true }, ?_, herr'⟩
          rw [if_neg hil]
          exact modifyCtx_find_self f cid' _ c' hc'
        · refine ⟨c', ?_, herr'⟩
          rw [if_neg hil]
          rw [modifyCtx_find_other f cid _ cid' heq]
          exact hc'
    show (depsErrorCheckLoop f (cid :: rest)).2 = false
    simp only [depsErrorCheckLoop, hc, herr, Bool.false_eq_true, if_false]
    exact ih _ hrest

/-- The per-dependency check loop aborts when every listed context is
present and some listed context has errors. -/
theorem depsErrorCheckLoop_abort :
    ∀ (deps : List Nat) (f : AntlrFacade),
    (∀ cid ∈ deps, ∃ c, alFind f.contexts cid = some c) →
    (∃ cid ∈ deps, ∃ c, alFind f.contexts cid = some c ∧
      c.hasErrors = true) →
    (depsErrorCheckLoop f deps).2 = true := by
  intro deps
  induction deps with
  | nil =>
    intro f _ herr
    obtain ⟨cid, hmem, _⟩ := herr
    cases hmem
  | cons cid rest ih =>
    intro f hpres herr
    obtain ⟨c, hc⟩ := hpres cid (List.mem_cons_self cid rest)
    by_cases hce : c.hasErrors = true
    · show (depsErrorCheckLoop f (cid :: rest)).2 = true
      simp only [depsErrorCheckLoop, hc, hce, if_true]
    · have hrest0 : ∀ cid' ∈ rest, ∃ c', alFind
          (if c.interpDataLoaded then f
           else modifyCtx f cid (fun c2 => { c2 with interpDataLoaded := true })
          ).contexts cid' = some c' := by
        intro cid' hcid'
        obtain ⟨c', hc'⟩ := hpres cid' (List.mem_cons_of_mem cid hcid')
        by_cases hil : c.interpDataLoaded
        · exact ⟨c', by rw [if_pos hil]; exact hc'⟩
        · by_cases heq : cid' = cid
          · subst heq
            refine ⟨{ c' with interpDataLoaded := true }, ?_⟩
            rw [if_neg hil]
            exact modifyCtx_find_self f cid' _ c' hc'
          · refine ⟨c', ?_⟩
            rw [if_neg hil]
            rw [modifyCtx_find_other f cid _ cid' heq]
            exact hc'
      have herr' : ∃ cid' ∈ rest, ∃ c', alFind
          (if c.interpDataLoaded then f
           else modifyCtx f cid (fun c2 => { c2 with interpDataLoaded := true })
          ).contexts cid' = some c' ∧ c'.hasErrors = true := by
        obtain ⟨cid', hmem, c', hc', hce'⟩ := herr
        rcases List.mem_cons.mp hmem with hh | hh
        · subst hh
          have hcc : c' = c := Option.some.inj (hc'.symm.trans hc)
          exact absurd (hcc ▸ hce') hce
        · refine ⟨cid', hh, ?_⟩
          by_cases hil : c.interpDataLoaded
          · exact ⟨c', by rw [if_pos hil]; exact hc', hce'⟩
          · by_cases heq : cid' = cid
            · subst heq
              have hcc : c' = c := Option.some.inj (hc'.symm.trans hc)
              exact absurd (hcc ▸ hce') hce
            · refine ⟨c', ?_, hce'⟩
              rw [if_neg hil]
              rw [modifyCtx_find_other f cid _ cid' heq]
              exact hc'
      have hcef : c.hasErrors = false := by
        cases hcc : c.hasErrors
        · rfl
        · exact absurd hcc hce
      show (depsErrorCheckLoop f (cid :: rest)).2 = true
      simp only [depsErrorCheckLoop, hc, hcef, Bool.false_eq_true, if_false]
      exact ih _ hrest0 herr'

/-- C10: when some context in the transitive dependency closure of the
queried grammar has errors, `generateSentence` invokes the callback exactly
once with `"[Fix grammar errors first]"` and index 0 and returns without
invoking the external sentence generation; and the error check covers only
the dependency contexts — when every dependency context is error-free the
generation proceeds, regardless of the queried grammar's own error flag. -/
theorem claim_C10 (env : CompilerModel) (fs : FileSystemModel) (fuel : Nat)
    (f : AntlrFacade) (name rule : String) (eid : Nat) (e : ContextEntry)
    (hname : alFind f.sourceContexts name = some eid)
    (heid : alFind f.entries eid = some e) :
    ((∀ cid ∈ pushDependencyFiles f eid, ∃ c,
        alFind f.contexts cid = some c) →
     (∃ cid ∈ pushDependencyFiles f eid, ∃ c,
        alFind f.contexts cid = some c ∧ c.hasErrors = true) →
     (generateSentence env fs fuel f name rule).calls =
        [("[Fix grammar errors first]", 0)] ∧
     (generateSentence env fs fuel f name rule).invoked = false) ∧
    ((∀ cid ∈ pushDependencyFiles f eid, ∃ c,
        alFind f.contexts cid = some c ∧ c.hasErrors = false) →
     (generateSentence env fs fuel f name rule).invoked = true ∧
     (generateSentence env fs fuel f name rule).forwarded =
        pushDependencyFiles f eid) := by
  have hgen : generateSentence env fs fuel f name rule =
      (match depsErrorCheckLoop f (pushDependencyFiles f eid) with
       | (f2, true) =>
         { state := f2, calls := [("[Fix grammar errors first]", 0)],
           forwarded := [], invoked := false }
       | (f2, false) =>
         { state := f2,
           calls := env.genCallbacks
             (match alFind f2.contexts e.context with
              | some c => c.text
              | none => "") rule,
           forwarded := pushDependencyFiles f eid, invoked := true }) := by
    simp [generateSentence, getContext, hname, heid]
  rcases hloop : depsErrorCheckLoop f (pushDependencyFiles f eid) with ⟨f2, b⟩
  rw [hloop] at hgen
  constructor
  · intro hpres herr
    have hb : b = true := by
      have := depsErrorCheckLoop_abort (pushDependencyFiles f eid) f hpres herr
      rw [hloop] at this
      exact this
    subst hb
    rw [hgen]
    exact ⟨rfl, rfl⟩
  · intro hclean
    have hb : b = false := by
      have := depsErrorCheckLoop_ok (pushDependencyFiles f eid) f hclean
      rw [hloop] at this
      exact this
    subst hb
    rw [hgen]
    exact ⟨rfl, rfl⟩

/-- C10 witness: with an erroring dependency the callback fires exactly once
and generation is skipped; with clean dependencies generation proceeds even
though the queried grammar's own context has errors. -/
theorem claim_C10_witness :
    ((generateSentence sampleEnv sampleFs 1 c10eFacade "G.g4" "r").calls =
      [("[Fix grammar errors first]", 0)] ∧
     (generateSentence sampleEnv sampleFs 1 c10eFacade "G.g4" "r").invoked =
      false) ∧
    ((generateSentence sampleEnv sampleFs 1 c10Facade "G.g4" "r").invoked =
      true ∧
     (generateSentence sampleEnv sampleFs 1 c10Facade "G.g4" "r").forwarded =
      pushDependencyFiles c10Facade 1) := by
  constructor
  · exact (claim_C10 sampleEnv sampleFs 1 c10eFacade "G.g4" "r" 1
      { context := 1, refCount := 1, dependencies := ["/i/D.g4"],
        grammar := "G.g4" } (by rfl) (by rfl)).1
      (by
        intro cid hcid
        have hpush : pushDependencyFiles c10eFacade 1 = [2] := by rfl
        rw [hpush] at hcid
        have : cid = 2 := by simpa using hcid
        subst this
        exact ⟨{ fileName := "/i/D.g4", text := "", hasErrors := true,
                 interpDataLoaded := false, refs := [] }, by rfl⟩)
      (by
        refine ⟨2, by decide, ?_⟩
        exact ⟨{ fileName := "/i/D.g4", text := "", hasErrors := true,
                 interpDataLoaded := false, refs := [] }, by rfl, rfl⟩)
  · exact (claim_C10 sampleEnv sampleFs 1 c10Facade "G.g4" "r" 1
      { context := 1, refCount := 1, dependencies := ["/i/D.g4"],
        grammar := "G.g4" } (by rfl) (by rfl)).2
      (by
        intro cid hcid
        have hpush : pushDependencyFiles c10Facade 1 = [2] := by rfl
        rw [hpush] at hcid
        have : cid = 2 := by simpa using hcid
        subst this
        exact ⟨{ fileName := "/i/D.g4", text := "", hasErrors := false,
                 interpDataLoaded := false, refs := [] }, by rfl, rfl⟩)

/-! ## The depth-first dependency closure (claim C4) -/

theorem mem_setAdd (l : List Nat) (c x : Nat) :
    x ∈ setAdd l c ↔ x ∈ l ∨ x = c := by
  by_cases h : c ∈ l
  · simp only [setAdd, if_pos h]
    constructor
    · exact Or.inl
    · rintro (hx | rfl)
      · exact hx
      · exact h
  · simp [setAdd, if_neg h]

theorem setAdd_nodup (l : List Nat) (c : Nat) (h : l.Nodup) :
    (setAdd l c).Nodup := by
  by_cases hc : c ∈ l
  · simpa [setAdd, if_pos hc] using h
  · simp only [setAdd, if_neg hc]
    simp [List.nodup_append, h, hc]

theorem pushInto_succ (f : AntlrFacade) (fuel : Nat) (eid : Nat)
    (acc : List Nat) :
    pushDependencyFilesInto f (fuel + 1) eid acc =
      (match alFind f.entries eid with
       | none => acc
       | some e => pushDepsListInto f fuel e.dependencies acc) := rfl

theorem pushList_nil (f : AntlrFacade) (fuel : Nat) (acc : List Nat) :
    pushDepsListInto f fuel [] acc = acc := rfl

theorem pushList_cons (f : AntlrFacade) (fuel : Nat) (d : String)
    (ds : List String) (acc : List Nat) :
    pushDepsListInto f fuel (d :: ds) acc =
      pushDepsListInto f fuel ds (pushStep f fuel acc d) := rfl

theorem pushStep_not_found (f : AntlrFacade) (fuel : Nat) (acc : List Nat)
    (d : String) (h : alFind f.sourceContexts d = none) :
    pushStep f fuel acc d = acc := by
  simp [pushStep, h]

theorem pushStep_no_entry (f : AntlrFacade) (fuel : Nat) (acc : List Nat)
    (d : String) (did : Nat) (h1 : alFind f.sourceContexts d = some did)
    (h2 : alFind f.entries did = none) :
    pushStep f fuel acc d = acc := by
  simp [pushStep, h1, h2]

theorem pushStep_found (f : AntlrFacade) (fuel : Nat) (acc : List Nat)
    (d : String) (did : Nat) (de : ContextEntry)
    (h1 : alFind f.sourceContexts d = some did)
    (h2 : alFind f.entries did = some de) :
    pushStep f fuel acc d =
      setAdd (pushDependencyFilesInto f fuel did acc) de.context := by
  simp [pushStep, h1, h2]

/-- Accumulator membership is preserved by one walk step. -/
theorem pushStep_mono (f : AntlrFacade) (fuel : Nat)
    (hmono : ∀ eid acc x, x ∈ acc →
      x ∈ pushDependencyFilesInto f fuel eid acc)
    (acc : List Nat) (d : String) (x : Nat) (hx : x ∈ acc) :
    x ∈ pushStep f fuel acc d := by
  cases h1 : alFind f.sourceContexts d with
  | none => rw [pushStep_not_found f fuel acc d h1]; exact hx
  | some did =>
    cases h2 : alFind f.entries did with
    | none => rw [pushStep_no_entry f fuel acc d did h1 h2]; exact hx
    | some de =>
      rw [pushStep_found f fuel acc d did de h1 h2]
      exact (mem_setAdd _ _ _).mpr (Or.inl (hmono did acc x hx))

/-- Accumulator membership is preserved by the depth-first walk. -/
theorem pushInto_mono (f : AntlrFacade) : ∀ fuel : Nat,
    (∀ eid acc x, x ∈ acc → x ∈ pushDependencyFilesInto f fuel eid acc) ∧
    (∀ (ds : List String) acc x, x ∈ acc →
      x ∈ pushDepsListInto f fuel ds acc) := by
  intro fuel
  induction fuel with
  | zero =>
    have h1 : ∀ eid acc x, x ∈ acc →
        x ∈ pushDependencyFilesInto f 0 eid acc := fun _ _ _ hx => hx
    refine ⟨h1, ?_⟩
    intro ds
    induction ds with
    | nil => intro acc x hx; exact hx
    | cons d rest ihds =>
      intro acc x hx
      rw [pushList_cons]
      exact ihds _ x (pushStep_mono f 0 h1 acc d x hx)
  | succ fuel ih =>
    have h1 : ∀ eid acc x, x ∈ acc →
        x ∈ pushDependencyFilesInto f (fuel + 1) eid acc := by
      intro eid acc x hx
      rw [pushInto_succ]
      cases hent : alFind f.entries eid with
      | none => exact hx
      | some e =>
        simp only []
        exact ih.2 e.dependencies acc x hx
    refine ⟨h1, ?_⟩
    intro ds
    induction ds with
    | nil => intro acc x hx; exact hx
    | cons d rest ihds =>
      intro acc x hx
      rw [pushList_cons]
      exact ihds _ x (pushStep_mono f (fuel + 1) h1 acc d x hx)

/-- One walk step preserves duplicate-freedom. -/
theorem pushStep_nodup (f : AntlrFacade) (fuel : Nat)
    (hnd : ∀ eid acc, acc.Nodup →
      (pushDependencyFilesInto f fuel eid acc).Nodup)
    (acc : List Nat) (d : String) (h : acc.Nodup) :
    (pushStep f fuel acc d).Nodup := by
  cases h1 : alFind f.sourceContexts d with
  | none => rw [pushStep_not_found f fuel acc d h1]; exact h
  | some did =>
    cases h2 : alFind f.entries did with
    | none => rw [pushStep_no_entry f fuel acc d did h1 h2]; exact h
    | some de =>
      rw [pushStep_found f fuel acc d did de h1 h2]
      exact setAdd_nodup _ _ (hnd did acc h)

/-- The gathered dependency set is duplicate-free ("deduplicated via a
set"). -/
theorem pushInto_nodup (f : AntlrFacade) : ∀ fuel : Nat,
    (∀ eid acc, acc.Nodup →
      (pushDependencyFilesInto f fuel eid acc).Nodup) ∧
    (∀ (ds : List String) acc, acc.Nodup →
      (pushDepsListInto f fuel ds acc).Nodup) := by
  intro fuel
  induction fuel with
  | zero =>
    have h1 : ∀ eid acc, acc.Nodup →
        (pushDependencyFilesInto f 0 eid acc).Nodup := fun _ _ h => h
    refine ⟨h1, ?_⟩
    intro ds
    induction ds with
    | nil => intro acc h; exact h
    | cons d rest ihds =>
      intro acc h
      rw [pushList_cons]
      exact ihds _ (pushStep_nodup f 0 h1 acc d h)
  | succ fuel ih =>
    have h1 : ∀ eid acc, acc.Nodup →
        (pushDependencyFilesInto f (fuel + 1) eid acc).Nodup := by
      intro eid acc h
      rw [pushInto_succ]
      cases hent : alFind f.entries eid with
      | none => exact h
      | some e =>
        simp only []
        exact ih.2 e.dependencies acc h
    refine ⟨h1, ?_⟩
    intro ds
    induction ds with
    | nil => intro acc h; exact h
    | cons d rest ihds =>
      intro acc h
      rw [pushList_cons]
      exact ihds _ (pushStep_nodup f (fuel + 1) h1 acc d h)

/-- Soundness of the walk: everything gathered beyond the accumulator is
reachable through resolved dependency edges. -/
theorem pushInto_sound (f : AntlrFacade) : ∀ fuel : Nat,
    (∀ eid acc x, x ∈ pushDependencyFilesInto f fuel eid acc →
      x ∈ acc ∨ ∃ n, ReachesCtx f eid x n) ∧
    (∀ (ds : List String) acc x, x ∈ pushDepsListInto f fuel ds acc →
      x ∈ acc ∨ ∃ d ∈ ds, ∃ did de,
        alFind f.sourceContexts d = some did ∧
        alFind f.entries did = some de ∧
        (x = de.context ∨ ∃ n, ReachesCtx f did x n)) := by
  intro fuel
  induction fuel with
  | zero =>
    have h1 : ∀ eid acc x, x ∈ pushDependencyFilesInto f 0 eid acc →
        x ∈ acc ∨ ∃ n, ReachesCtx f eid x n := fun _ _ _ hx => Or.inl hx
    refine ⟨h1, ?_⟩
    intro ds
    induction ds with
    | nil => intro acc x hx; exact Or.inl hx
    | cons d rest ihds =>
      intro acc x hx
      rw [pushList_cons] at hx
      rcases ihds _ x hx with hs | ⟨d', hd', did, de, hf1, hf2, hcase⟩
      · cases h1' : alFind f.sourceContexts d with
        | none =>
          rw [pushStep_not_found f 0 acc d h1'] at hs
          exact Or.inl hs
        | some did =>
          cases h2' : alFind f.entries did with
          | none =>
            rw [pushStep_no_entry f 0 acc d did h1' h2'] at hs
            exact Or.inl hs
          | some de =>
            rw [pushStep_found f 0 acc d did de h1' h2'] at hs
            rcases (mem_setAdd _ _ _).mp hs with hs2 | rfl
            · exact Or.inl hs2
            · exact Or.inr ⟨d, List.mem_cons_self d rest, did, de, h1', h2',
                Or.inl rfl⟩
      · exact Or.inr ⟨d', List.mem_cons_of_mem d hd', did, de, hf1, hf2, hcase⟩
  | succ fuel ih =>
    have h1 : ∀ eid acc x, x ∈ pushDependencyFilesInto f (fuel + 1) eid acc →
        x ∈ acc ∨ ∃ n, ReachesCtx f eid x n := by
      intro eid acc x hx
      rw [pushInto_succ] at hx
      cases hent : alFind f.entries eid with
      | none =>
        rw [hent] at hx
        exact Or.inl hx
      | some e =>
        rw [hent] at hx
        simp only [] at hx
        rcases ih.2 e.dependencies acc x hx with hs |
          ⟨d, hd, did, de, hf1, hf2, hcase⟩
        · exact Or.inl hs
        · rcases hcase with rfl | ⟨n, hn⟩
          · exact Or.inr ⟨1, ReachesCtx.direct eid e d did de hent hd hf1 hf2⟩
          · exact Or.inr ⟨n + 1,
              ReachesCtx.step eid e d did de x n hent hd hf1 hf2 hn⟩
    refine ⟨h1, ?_⟩
    intro ds
    induction ds with
    | nil => intro acc x hx; exact Or.inl hx
    | cons d rest ihds =>
      intro acc x hx
      rw [pushList_cons] at hx
      rcases ihds _ x hx with hs | ⟨d', hd', did, de, hf1, hf2, hcase⟩
      · cases h1' : alFind f.sourceContexts d with
        | none =>
          rw [pushStep_not_found f (fuel + 1) acc d h1'] at hs
          exact Or.inl hs
        | some did =>
          cases h2' : alFind f.entries did with
          | none =>
            rw [pushStep_no_entry f (fuel + 1) acc d did h1' h2'] at hs
            exact Or.inl hs
          | some de =>
            rw [pushStep_found f (fuel + 1) acc d did de h1' h2'] at hs
            rcases (mem_setAdd _ _ _).mp hs with hs2 | rfl
            · rcases h1 did acc x hs2 with hs3 | ⟨n, hn⟩
              · exact Or.inl hs3
              · exact Or.inr ⟨d, List.mem_cons_self d rest, did, de, h1', h2',
                  Or.inr ⟨n, hn⟩⟩
            · exact Or.inr ⟨d, List.mem_cons_self d rest, did, de, h1', h2',
                Or.inl rfl⟩
      · exact Or.inr ⟨d', List.mem_cons_of_mem d hd', did, de, hf1, hf2, hcase⟩

/-- The walk over a dependency list gathers the context of every listed,
registered dependency, and everything its recursive walk gathers. -/
theorem pushList_covers (f : AntlrFacade) (fuel : Nat) :
    ∀ (ds : List String) (acc : List Nat) (d : String) (did : Nat)
      (de : ContextEntry) (x : Nat),
    d ∈ ds → alFind f.sourceContexts d = some did →
    alFind f.entries did = some de →
    (x = de.context ∨ ∀ acc', x ∈ pushDependencyFilesInto f fuel did acc') →
    x ∈ pushDepsListInto f fuel ds acc := by
  intro ds
  induction ds with
  | nil =>
    intro acc d did de x hd
    cases hd
  | cons h t iht =>
    intro acc d did de x hd hf1 hf2 hcase
    rcases List.mem_cons.mp hd with rfl | hmem
    · rw [pushList_cons, pushStep_found f fuel acc d did de hf1 hf2]
      rcases hcase with rfl | hall
      · exact (pushInto_mono f fuel).2 t _ de.context
          ((mem_setAdd _ _ _).mpr (Or.inr rfl))
      · exact (pushInto_mono f fuel).2 t _ x
          ((mem_setAdd _ _ _).mpr (Or.inl (hall acc)))
    · rw [pushList_cons]
      exact iht _ d did de x hmem hf1 hf2 hcase

/-- Completeness of the walk: with fuel at least the reach depth, every
context reachable through resolved dependency edges is gathered. -/
theorem pushInto_complete (f : AntlrFacade) (eid x n : Nat)
    (h : ReachesCtx f eid x n) :
    ∀ fuel, n ≤ fuel → ∀ acc, x ∈ pushDependencyFilesInto f fuel eid acc := by
  induction h with
  | direct eid e d did de he hd h1 h2 =>
    intro fuel hn acc
    obtain ⟨k, rfl⟩ : ∃ k, fuel = k + 1 := ⟨fuel - 1, by omega⟩
    rw [pushInto_succ]
    rw [he]
    exact pushList_covers f k e.dependencies acc d did de de.context hd h1 h2
      (Or.inl rfl)
  | step eid e d did de c n he hd h1 h2 hreach ih =>
    intro fuel hn acc
    obtain ⟨k, rfl⟩ : ∃ k, fuel = k + 1 := ⟨fuel - 1, by omega⟩
    rw [pushInto_succ]
    rw [he]
    exact pushList_covers f k e.dependencies acc d did de c hd h1 h2
      (Or.inr (fun acc' => ih k (by omega) acc'))

/-! ## Claim C4 (corrected) -/

/-- C4 as amended: `generate`, `generateSentence` and `createDebugger`
gather the transitive closure of the grammar's resolved dependency contexts
depth-first, deduplicated via a set, and forward that closure together with
the query (`createDebugger` additionally leads the set with the queried
context itself); `getDiagnostics` and `countReferences` — like the
single-file query `symbolInfoAtPosition` — forward no dependency contexts.
The gathered closure is duplicate-free, everything in it is reachable over
resolved dependency edges, and every context reachable within the map-size
fuel bound is in it. -/
theorem claim_C4 (env : CompilerModel) (fs : FileSystemModel) (fuel : Nat)
    (f : AntlrFacade) (name sym rule : String) (col row : Nat) (ltc : Bool)
    (eid : Nat) (e : ContextEntry)
    (hname : alFind f.sourceContexts name = some eid)
    (hent : alFind f.entries eid = some e) :
    (getDiagnostics env fs fuel f name).forwarded = [] ∧
    (countReferences env fs fuel f name sym).forwarded = [] ∧
    (symbolInfoAtPosition env fs fuel f name col row ltc).forwarded = [] ∧
    (generate env fs fuel f name).forwarded = pushDependencyFiles f eid ∧
    ((∀ cid ∈ pushDependencyFiles f eid, ∃ c,
        alFind f.contexts cid = some c ∧ c.hasErrors = false) →
      (generateSentence env fs fuel f name rule).forwarded =
        pushDependencyFiles f eid ∧
      (generateSentence env fs fuel f name rule).invoked = true) ∧
    ((∀ cid ∈ pushDependencyFilesInto f (f.sourceContexts.length + 1) eid
        (setAdd [] e.context), ∃ c,
        alFind f.contexts cid = some c ∧ c.hasErrors = false) →
      (createDebugger env fs fuel f name).debuggerContexts =
        some (pushDependencyFilesInto f (f.sourceContexts.length + 1) eid
          (setAdd [] e.context))) ∧
    (pushDependencyFiles f eid).Nodup ∧
    (∀ x, x ∈ pushDependencyFiles f eid → ∃ n, ReachesCtx f eid x n) ∧
    (∀ x n, ReachesCtx f eid x n → n ≤ f.sourceContexts.length + 1 →
      x ∈ pushDependencyFiles f eid) := by
  refine ⟨rfl, rfl, rfl, ?_, ?_, ?_, ?_, ?_, ?_⟩
  · simp [generate, getContext, hname, hent]
  · intro hclean
    have hgen : generateSentence env fs fuel f name rule =
        (match depsErrorCheckLoop f (pushDependencyFiles f eid) with
         | (f2, true) =>
           { state := f2, calls := [("[Fix grammar errors first]", 0)],
             forwarded := [], invoked := false }
         | (f2, false) =>
           { state := f2,
             calls := env.genCallbacks
               (match alFind f2.contexts e.context with
                | some c => c.text
                | none => "") rule,
             forwarded := pushDependencyFiles f eid, invoked := true }) := by
      simp [generateSentence, getContext, hname, hent]
    rcases hloop : depsErrorCheckLoop f (pushDependencyFiles f eid)
      with ⟨f2, b⟩
    rw [hloop] at hgen
    have hb : b = false := by
      have := depsErrorCheckLoop_ok (pushDependencyFiles f eid) f hclean
      rw [hloop] at this
      exact this
    subst hb
    rw [hgen]
    exact ⟨rfl, rfl⟩
  · intro hclean
    have hdbg : createDebugger env fs fuel f name =
        (match depsErrorCheckLoop f
          (pushDependencyFilesInto f (f.sourceContexts.length + 1) eid
            (setAdd [] e.context)) with
         | (f2, true) => { state := f2, debuggerContexts := none }
         | (f2, false) =>
           { state := f2,
             debuggerContexts := some (pushDependencyFilesInto f
               (f.sourceContexts.length + 1) eid (setAdd [] e.context)) }) := by
      simp [createDebugger, getContext, hname, hent]
    rcases hloop : depsErrorCheckLoop f
      (pushDependencyFilesInto f (f.sourceContexts.length + 1) eid
        (setAdd [] e.context)) with ⟨f2, b⟩
    rw [hloop] at hdbg
    have hb : b = false := by
      have := depsErrorCheckLoop_ok _ f hclean
      rw [hloop] at this
      exact this
    subst hb
    rw [hdbg]
  · exact (pushInto_nodup f _).1 eid [] List.nodup_nil
  · intro x hx
    rcases (pushInto_sound f _).1 eid [] x hx with hs | hs
    · cases hs
    · exact hs
  · intro x n hr hn
    exact pushInto_complete f eid x n hr _ hn []

/-- C4 counterexample: on a facade where the dependency closure of `G.g4` is
nonempty, `getDiagnostics` and `countReferences` forward no dependency
contexts — refuting the claim that diagnostics and reference counts forward
the closure. -/
theorem claim_C4_counterexample :
    pushDependencyFiles c10Facade 1 = [2] ∧
    (getDiagnostics sampleEnv sampleFs 1 c10Facade "G.g4").forwarded = [] ∧
    (countReferences sampleEnv sampleFs 1 c10Facade "G.g4" "s").forwarded =
      [] ∧
    ([2] : List Nat) ≠ [] := by
  exact ⟨by rfl, rfl, rfl, by decide⟩

/-- C4 witness: on an error-free facade, `generate` forwards the full
dependency closure `[2]`, sentence generation (clean dependencies) forwards
it too, the debugger receives the queried context followed by the closure,
and the closure is duplicate-free. -/
theorem claim_C4_witness :
    (generate sampleEnv sampleFs 1 c4Facade "G.g4").forwarded =
      pushDependencyFiles c4Facade 1 ∧
    (generateSentence sampleEnv sampleFs 1 c4Facade "G.g4" "r").forwarded =
      pushDependencyFiles c4Facade 1 ∧
    (createDebugger sampleEnv sampleFs 1 c4Facade "G.g4").debuggerContexts =
      some (pushDependencyFilesInto c4Facade 3 1 (setAdd [] 1)) ∧
    (pushDependencyFiles c4Facade 1).Nodup := by
  have h := claim_C4 sampleEnv sampleFs 1 c4Facade "G.g4" "s" "r" 0 0 true 1
    { context := 1, refCount := 1, dependencies := ["/i/D.g4"],
      grammar := "G.g4" } (by rfl) (by rfl)
  have hclean : ∀ cid ∈ pushDependencyFiles c4Facade 1, ∃ c,
      alFind c4Facade.contexts cid = some c ∧ c.hasErrors = false := by
    intro cid hcid
    have hpush : pushDependencyFiles c4Facade 1 = [2] := by rfl
    rw [hpush] at hcid
    have : cid = 2 := by simpa using hcid
    subst this
    exact ⟨{ fileName := "/i/D.g4", text := "", hasErrors := false,
             interpDataLoaded := false, refs := [] }, by rfl, rfl⟩
  have hcleanD : ∀ cid ∈ pushDependencyFilesInto c4Facade
      (c4Facade.sourceContexts.length + 1) 1 (setAdd [] 1), ∃ c,
      alFind c4Facade.contexts cid = some c ∧ c.hasErrors = false := by
    intro cid hcid
    have hpush : pushDependencyFilesInto c4Facade
        (c4Facade.sourceContexts.length + 1) 1 (setAdd [] 1) = [1, 2] := by
      rfl
    rw [hpush] at hcid
    rcases by simpa using hcid with rfl | rfl
    · exact ⟨{ fileName := "G.g4", text := "", hasErrors := false,
               interpDataLoaded := false, refs := [2] }, by rfl, rfl⟩
    · exact ⟨{ fileName := "/i/D.g4", text := "", hasErrors := false,
               interpDataLoaded := false, refs := [] }, by rfl, rfl⟩
  refine ⟨h.2.2.2.1, (h.2.2.2.2.1 hclean).1, ?_, h.2.2.2.2.2.2.1⟩
  exact h.2.2.2.2.2.1 hcleanD

end VsAntlr
